import Mathlib

/-!
Verification of the race-state reconstruction engine of this repository
(`src/frontend/src/engine/useRaceState.ts`; the file holds an earlier and a
current revision of the engine, and `src/unnamed/part_003` holds a further
historical variant).

Modelling conventions:
* JavaScript numbers are modelled as exact rationals (`ℚ`).  `ℚ` division in
  Lean is total with `x / 0 = 0`; every division site of the source is either
  guarded exactly as in the source or proven below to have a nonzero divisor,
  so the totalisation is never observable in the theorems.
* The two `while` loops doing binary search are modelled with an explicit
  fuel argument that is provably larger than the number of iterations the
  loop can perform (the bracket `high - low` shrinks at every step), so the
  fuel-exhaustion branch is unreachable and the functions compute exactly
  what the loops compute, while remaining structurally recursive.
* JavaScript `Record` objects are modelled as association lists in key
  insertion order (`Object.values` / `Object.keys` enumerate in that order
  for string keys).
* JavaScript truthiness tests on numbers (`if (s1 && ...)`,
  `track.length || 58000`) are modelled as explicit `≠ 0` / `= 0` tests.
-/

/-- `PositionPoint` of useRaceState.ts: `{ t, s, lap }`. -/
structure PositionPoint where
  t : ℚ
  s : ℚ
  lap : ℤ
deriving DecidableEq

/-- Default used to totalise list indexing (source indexing is always in
bounds on the paths the theorems talk about). -/
def ppDflt : PositionPoint := ⟨0, 0, 0⟩

/-- `TelemetryPoint` of useRaceState.ts. -/
structure TelemetryPoint where
  t : ℚ
  speed : ℚ
  rpm : ℚ
  gear : ℚ
  throttle : ℚ
  brake : ℚ
  drs : ℚ
  x : ℚ
  y : ℚ
deriving DecidableEq

def tpDflt : TelemetryPoint := ⟨0, 0, 0, 0, 0, 0, 0, 0, 0⟩

/-- `PitStop` of useRaceState.ts: `{ lap, enter, exit }`. -/
structure PitStop where
  lap : ℤ
  enter : ℚ
  exit : ℚ
deriving DecidableEq

/-- `LapData` of useRaceState.ts: `{ lap, startTime, s1, s2, s3 }` with
nullable sector durations. -/
structure LapData where
  lap : ℤ
  startTime : ℚ
  s1 : Option ℚ
  s2 : Option ℚ
  s3 : Option ℚ
deriving DecidableEq

/-- Sector bests with nullable fields (`bestSectors` of a driver, and of the
race in the current revision). -/
structure SectorBestsOpt where
  s1 : Option ℚ
  s2 : Option ℚ
  s3 : Option ℚ
deriving DecidableEq

/-- Global `bestSectors` of the earlier engine revision's `RaceData`, whose
fields are plain numbers. -/
structure SectorBests where
  s1 : ℚ
  s2 : ℚ
  s3 : ℚ
deriving DecidableEq

/-- `DriverData` of useRaceState.ts (current revision). -/
structure DriverData where
  driverCode : String
  team : String
  teamColor : String
  positions : List PositionPoint
  telemetry : Option (List TelemetryPoint)
  pitStops : Option (List PitStop)
  laps : Option (List LapData)
  bestSectors : Option SectorBestsOpt
  compound : Option String
deriving DecidableEq

/-- `RaceData` of useRaceState.ts (current revision).  `drivers` is a
JavaScript `Record`, modelled as an association list in key insertion
order; `track.length` is optional. -/
structure RaceData where
  trackPoints : List (ℚ × ℚ)
  trackLength : Option ℚ
  drivers : List (String × DriverData)
  bestSectors : Option SectorBestsOpt
deriving DecidableEq

/- =========================
   INTERPOLATE POSITION  (useRaceState.ts `interpolate`, both revisions are
   textually identical)
========================= -/

/-- The scan `let i = 1; while (i < points.length && points[i].t < raceTime) i++;`
of `interpolate`.  The recursion walks the points from index 1 upward and
returns the final value of `i`. -/
def scanIdx (raceTime : ℚ) : List PositionPoint → ℕ → ℕ
  | [], i => i
  | p :: rest, i => if p.t < raceTime then scanIdx raceTime rest (i + 1) else i

/-- `interpolate(points, raceTime)` of useRaceState.ts.  Returns `none` for an
empty list (`null` in the source); clamps to first/last sample; otherwise
linearly interpolates `s` between the bracketing pair, taking `lap` from the
earlier sample. -/
def interpolate (points : List PositionPoint) (raceTime : ℚ) : Option PositionPoint :=
  match points with
  | [] => none
  | _ =>
    let n := points.length
    if raceTime ≤ (points.getD 0 ppDflt).t then some (points.getD 0 ppDflt)
    else if (points.getD (n - 1) ppDflt).t ≤ raceTime then some (points.getD (n - 1) ppDflt)
    else
      let i := scanIdx raceTime (points.drop 1) 1
      let p0 := points.getD (i - 1) ppDflt
      let p1 := points.getD i ppDflt
      let ratio := (raceTime - p0.t) / (p1.t - p0.t)
      some ⟨raceTime, p0.s + ratio * (p1.s - p0.s), p0.lap⟩

/- =========================
   FIND TIME FOR GIVEN S — earlier revision (linear scan, useRaceState.ts
   lines 91-103)
========================= -/

/-- The loop body of the earlier revision's `findTimeForS`: scan from index 1,
`p0` is the previous point; when the scan falls off the end the source
returns `points[points.length - 1].t`, which is exactly the time of the last
`p0`. -/
def goOld (targetS : ℚ) (p0 : PositionPoint) : List PositionPoint → ℚ
  | [] => p0.t
  | p1 :: rest =>
    if targetS ≤ p1.s then
      p0.t + (targetS - p0.s) / (p1.s - p0.s) * (p1.t - p0.t)
    else goOld targetS p1 rest

/-- `findTimeForS(points, targetS)` of the earlier engine revision: linear
scan for the first index `i ≥ 1` with `points[i].s >= targetS`, interpolate
between `i-1` and `i` (no division-by-zero guard and no boundary clamps in
the source); past the end return the last sample's time.  The source applied
to an empty array yields `undefined`; the theorems below never use the empty
case, which is modelled as `0`. -/
def findTimeForS_old (points : List PositionPoint) (targetS : ℚ) : ℚ :=
  match points with
  | [] => 0
  | p :: rest => goOld targetS p rest

/- =========================
   FIND TIME FOR GIVEN S — current revision (binary search, useRaceState.ts
   lines 401-433)
========================= -/

/-- The `while (low < high)` binary-search loop of the current
`findTimeForS`, with fuel.  `mid = Math.floor((low + high) / 2)` is `ℕ`
division.  Each iteration strictly shrinks `high - low`, so fuel
`high - low` makes the `0`-with-`low < high` branch unreachable and the
function computes exactly the loop's final `low`. -/
def bsearchAux (points : List PositionPoint) (targetS : ℚ) :
    ℕ → ℕ → ℕ → ℕ
  | 0, low, _ => low
  | fuel + 1, low, high =>
    if low < high then
      let mid := (low + high) / 2
      if (points.getD mid ppDflt).s < targetS then
        bsearchAux points targetS fuel (mid + 1) high
      else
        bsearchAux points targetS fuel low mid
    else low

/-- `findTimeForS(points, targetS)` of the current engine revision: boundary
clamps, then binary search for the first index with `s ≥ targetS`, then
linear interpolation with an equal-distance guard.  The `if (!p0) return
p1.t` guard of the source (reachable only if the search returned 0) is kept
as the `i = 0` case. -/
def findTimeForS (points : List PositionPoint) (targetS : ℚ) : ℚ :=
  match points with
  | [] => 0
  | _ =>
    let n := points.length
    if targetS ≤ (points.getD 0 ppDflt).s then (points.getD 0 ppDflt).t
    else if (points.getD (n - 1) ppDflt).s ≤ targetS then (points.getD (n - 1) ppDflt).t
    else
      let i := bsearchAux points targetS (n - 1) 0 (n - 1)
      if i = 0 then (points.getD 0 ppDflt).t
      else
        let p0 := points.getD (i - 1) ppDflt
        let p1 := points.getD i ppDflt
        if p1.s = p0.s then p0.t
        else p0.t + (targetS - p0.s) / (p1.s - p0.s) * (p1.t - p0.t)

/- =========================
   INTERPOLATE TELEMETRY  (current revision, lines 346-395)
========================= -/

/-- The `while (low <= high)` binary-search loop of `interpolateTelemetry`,
with fuel.  `high` can become `-1`, so both cursors are integers.  `low`
starts at 0 and never decreases, so `low + high ≥ 0` whenever the loop body
runs and truncating integer division agrees with `Math.floor`.  Each
iteration strictly shrinks `high - low`, so fuel `points.length` suffices
and the `0` branch is unreachable. -/
def bsearchTAux (points : List TelemetryPoint) (raceTime : ℚ) :
    ℕ → ℤ → ℤ → ℤ
  | 0, low, _ => low
  | fuel + 1, low, high =>
    if low ≤ high then
      let mid := (low + high) / 2
      if (points.getD (mid.toNat) tpDflt).t < raceTime then
        bsearchTAux points raceTime fuel (mid + 1) high
      else
        bsearchTAux points raceTime fuel low (mid - 1)
    else low

/-- The tail of `interpolateTelemetry` after the binary search: index bounds
checks, then the `dt <= 0` fallback to `p0`, else linear interpolation of
the continuous channels and nearest-endpoint choice for the discrete ones
(`gear`, `drs`). -/
def telemetryAt (points : List TelemetryPoint) (raceTime : ℚ) (i : ℤ) :
    TelemetryPoint :=
  if i ≤ 0 then points.getD 0 tpDflt
  else if (points.length : ℤ) ≤ i then points.getD (points.length - 1) tpDflt
  else
    let p0 := points.getD (i.toNat - 1) tpDflt
    let p1 := points.getD i.toNat tpDflt
    let dt := p1.t - p0.t
    if dt ≤ 0 then p0
    else
      let ratio := (raceTime - p0.t) / dt
      { t := raceTime
        speed := p0.speed + (p1.speed - p0.speed) * ratio
        rpm := p0.rpm + (p1.rpm - p0.rpm) * ratio
        gear := if ratio < 1/2 then p0.gear else p1.gear
        throttle := p0.throttle + (p1.throttle - p0.throttle) * ratio
        brake := p0.brake + (p1.brake - p0.brake) * ratio
        drs := if ratio < 1/2 then p0.drs else p1.drs
        x := p0.x + (p1.x - p0.x) * ratio
        y := p0.y + (p1.y - p0.y) * ratio }

/-- `interpolateTelemetry(points, raceTime)` of the current revision:
`null` for empty input, boundary clamps, then binary search and
`telemetryAt`. -/
def interpolateTelemetry (points : List TelemetryPoint) (raceTime : ℚ) :
    Option TelemetryPoint :=
  match points with
  | [] => none
  | _ =>
    let n := points.length
    if raceTime ≤ (points.getD 0 tpDflt).t then some (points.getD 0 tpDflt)
    else if (points.getD (n - 1) tpDflt).t ≤ raceTime then some (points.getD (n - 1) tpDflt)
    else some (telemetryAt points raceTime (bsearchTAux points raceTime n 0 ((n : ℤ) - 1)))

/- =========================
   SECTOR LOGIC  (earlier engine revision, useRaceState.ts lines 131-165)
========================= -/

/-- Sector colour classification of useRaceState.ts. -/
inductive SectorColor where
  | purple
  | green
  | yellow
deriving DecidableEq

/-- One revealed sector: `{ time, color }`. -/
structure SectorState where
  time : ℚ
  color : SectorColor
deriving DecidableEq

/-- The three `sectors` slots of a `DriverState` in the earlier revision. -/
structure Sectors where
  s1 : Option SectorState
  s2 : Option SectorState
  s3 : Option SectorState
deriving DecidableEq

/-- JavaScript truthiness of a nullable number: non-null and nonzero. -/
def truthyOpt (x : Option ℚ) : Bool :=
  match x with
  | none => false
  | some v => v ≠ 0

/-- `getColor(time, sKey)` of the earlier revision's sector block: purple if
within `EPSILON = 0.005` of the (truthy) global best, else green if within
`EPSILON` of the (truthy) personal best, else yellow. -/
def getColor (globalBest : ℚ) (personalBest : Option ℚ) (time : ℚ) : SectorColor :=
  if globalBest ≠ 0 ∧ |time - globalBest| < 5/1000 then .purple
  else if truthyOpt personalBest ∧ |time - (personalBest.getD 0)| < 5/1000 then .green
  else .yellow

/-- The sector reveal block of the earlier engine revision (useRaceState.ts
lines 139-163), given the `LapData` found for the current lap: sector `k` is
revealed once all of `s1..sk` are truthy and
`raceTime ≥ startTime + s1 + ... + sk`. -/
def computeSectors (lapData : LapData) (globalBest : SectorBests)
    (personalBest : SectorBestsOpt) (raceTime : ℚ) : Sectors :=
  let st := lapData.startTime
  let o1 :=
    if truthyOpt lapData.s1 ∧ st + lapData.s1.getD 0 ≤ raceTime then
      some ⟨lapData.s1.getD 0, getColor globalBest.s1 personalBest.s1 (lapData.s1.getD 0)⟩
    else none
  let o2 :=
    if truthyOpt lapData.s1 ∧ truthyOpt lapData.s2 ∧
        st + lapData.s1.getD 0 + lapData.s2.getD 0 ≤ raceTime then
      some ⟨lapData.s2.getD 0, getColor globalBest.s2 personalBest.s2 (lapData.s2.getD 0)⟩
    else none
  let o3 :=
    if truthyOpt lapData.s1 ∧ truthyOpt lapData.s2 ∧ truthyOpt lapData.s3 ∧
        st + lapData.s1.getD 0 + lapData.s2.getD 0 + lapData.s3.getD 0 ≤ raceTime then
      some ⟨lapData.s3.getD 0, getColor globalBest.s3 personalBest.s3 (lapData.s3.getD 0)⟩
    else none
  ⟨o1, o2, o3⟩

/- =========================
   MAIN HOOK  (current engine revision, useRaceState.ts lines 438-583)
========================= -/

/-- `DriverState` of the current revision, with the `_distanceTraveled`
field the reducer attaches to each state before sorting (`dist`, initially
0). -/
structure DriverState where
  driverCode : String
  teamColor : String
  lap : ℤ
  s : ℚ
  gap : ℚ
  interval : ℚ
  inPit : Bool
  compound : String
  positionChange : ℤ
  telemetry : Option TelemetryPoint
  dist : ℚ
deriving DecidableEq

def dsDflt : DriverState :=
  ⟨"", "", 0, 0, 0, 0, false, "", 0, none, 0⟩

/-- The hard-coded `GRID_ORDER` array of the current revision. -/
def GRID_ORDER : List String :=
  ["VER", "NOR", "PIA", "LEC", "SAI", "RUS", "HAM", "ALB", "ALO", "GAS",
   "HUL", "STR", "OCO", "TSU", "ZHO", "DEV", "MAG", "BOT", "SAR", "PER"]

/-- `mockCompounds[(driverCode.charCodeAt(0) + driverCode.length) % 3]`.
(`charCodeAt(0)` of the empty string is `NaN` in JavaScript; the empty code
is modelled with character code 0, a case no theorem depends on.) -/
def mockCompound (code : String) : String :=
  (["SOFT", "MEDIUM", "HARD"].getD (((code.data.headD ⟨0, by decide⟩).toNat + code.length) % 3) "")

/-- `raceData.track.length || 58000`: any falsy length (absent or 0) is
replaced by 58000. -/
def trackLenOf (rd : RaceData) : ℚ :=
  match rd.trackLength with
  | none => 58000
  | some l => if l = 0 then 58000 else l

/-- The per-driver body of the current revision's
`Object.values(raceData.drivers).forEach` (lines 458-502): interpolate the
position (skip the driver when there is none), interpolate telemetry, pit
test, derived lap, grid synthesis for `raceTime < 1`, compound fallback. -/
def buildState (trackLen : ℚ) (raceTime : ℚ) (driver : DriverData) :
    Option DriverState :=
  (interpolate driver.positions raceTime).map fun interp =>
    let tel : Option TelemetryPoint :=
      driver.telemetry.bind fun tps => interpolateTelemetry tps raceTime
    let inPit :=
      ((driver.pitStops.getD []).any
        (fun pit => decide (pit.enter ≤ raceTime) && decide (raceTime ≤ pit.exit)))
    let derivedLap : ℤ := max 1 (Int.floor (interp.s / trackLen) + 1)
    let displayS : ℚ :=
      if raceTime < 1 then
        ((GRID_ORDER.findIdx? (· = driver.driverCode)).map
          (fun gridIndex => trackLen - (gridIndex : ℚ) * 16)).getD interp.s
      else interp.s
    let compound :=
      (driver.compound.bind fun c => if c = "" then none else some c).getD
        (mockCompound driver.driverCode)
    { driverCode := driver.driverCode
      teamColor := driver.teamColor
      lap := derivedLap
      s := displayS
      gap := 0
      interval := 0
      inPit := inPit
      compound := compound
      positionChange := 0
      telemetry := tel
      dist := 0 }

/-- `firstSMap` of the current revision (lines 506-513), as a total
function: the **last** driver record carrying a given `driverCode` and a
nonempty `positions` array wins (the source builds a map keyed by
`driverCode`, overwriting earlier entries); every use site in the source
reads it with `?? 0`, so a missing code yields 0. -/
def firstSFn (rd : RaceData) (code : String) : ℚ :=
  (((rd.drivers.filter
      (fun e => decide (e.2.driverCode = code) && !e.2.positions.isEmpty)).getLast?).map
    (fun e => (e.2.positions.headD ppDflt).s)).getD 0

/-- The sort comparator of the current revision (lines 521-531): descending
`_distanceTraveled`, with a descending tie-break on the starting offset
(`firstSMap`) when the distances differ by less than 0.5.  A negative result
orders `a` before `b`. -/
def cmpStates (firstS : String → ℚ) (a b : DriverState) : ℚ :=
  let diff := b.dist - a.dist
  if |diff| < 1/2 then firstS b.driverCode - firstS a.driverCode
  else diff

/-- Stable insertion of `x` into `l` under a numeric comparator: `x` goes in
front of the first element it strictly precedes (`cmp x y < 0`); on ties and
losses it stays behind, preserving the original relative order.  This
models the ECMAScript stable `Array.prototype.sort`. -/
def insertC {α : Type} (cmp : α → α → ℚ) (x : α) : List α → List α
  | [] => [x]
  | y :: ys => if cmp x y < 0 then x :: y :: ys else y :: insertC cmp x ys

/-- Stable insertion sort under a numeric comparator (the model of
`states.sort(comparator)`; for a consistent comparator this is the unique
stable sorted order ECMAScript mandates). -/
def isortC {α : Type} (cmp : α → α → ℚ) : List α → List α
  | [] => []
  | x :: xs => insertC cmp x (isortC cmp xs)

/-- The per-index body of the gap/interval/position-change `forEach` of the
current revision (lines 540-576).  `sorted` is the ranked list, `drivers`
the dataset record, `firstS` the `firstSMap` lookup, `prevOrder` the
previous frame's order.  The body only reads `driverCode` (never a mutated
field) from other states, so it is a pure function of the ranked list. -/
def computeOne (raceTime : ℚ) (drivers : List (String × DriverData))
    (firstS : String → ℚ) (prevOrder : List String)
    (sorted : List DriverState) (idx : ℕ) : DriverState :=
  let st := sorted.getD idx dsDflt
  let leaderCode := (sorted.getD 0 dsDflt).driverCode
  let st1 :=
    if idx = 0 then { st with gap := 0, interval := 0 }
    else
      (drivers.find? (fun e => decide (e.2.driverCode = leaderCode))).elim st fun le =>
        let myDistTraveled := st.dist
        let leaderFirstS := firstS leaderCode
        let rawGap := raceTime - findTimeForS le.2.positions (myDistTraveled + leaderFirstS)
        let g := if 1/1000 < rawGap then (Int.floor (rawGap * 1000 + 1/2) : ℚ) / 1000 else 0
        let ahead := sorted.getD (idx - 1) dsDflt
        let iv :=
          (drivers.find? (fun e => decide (e.2.driverCode = ahead.driverCode))).elim
            st.interval fun ae =>
              let rawInterval :=
                raceTime - findTimeForS ae.2.positions (myDistTraveled + firstS ahead.driverCode)
              if 1/1000 < rawInterval then (Int.floor (rawInterval * 1000 + 1/2) : ℚ) / 1000 else 0
        { st with gap := g, interval := iv }
  let pc : ℤ :=
    ((prevOrder.findIdx? (· = st.driverCode)).map
      (fun prevIndex => (prevIndex : ℤ) - (idx : ℤ))).getD 0
  { st1 with positionChange := pc }

/-- The built and `_distanceTraveled`-annotated state list of the current
revision (lines 458-518): one state per driver with position samples, in
record order, annotated with `dist = s - firstSMap[driverCode] ?? 0`. -/
def annStates (rd : RaceData) (raceTime : ℚ) : List DriverState :=
  ((rd.drivers.map Prod.snd).filterMap (buildState (trackLenOf rd) raceTime)).map
    (fun d => { d with dist := d.s - firstSFn rd d.driverCode })

/-- The ranked state list (line 521's `states.sort`). -/
def sortedStates (rd : RaceData) (raceTime : ℚ) : List DriverState :=
  isortC (cmpStates (firstSFn rd)) (annStates rd raceTime)

/-- `useRaceState(raceData, raceTime)` of the current revision, with the
`prevOrderRef` cell made explicit: the result is the snapshot list together
with the new value of the carried previous-order state (unchanged when the
source returns early without writing the ref). -/
def raceState (raceData : Option RaceData) (raceTime : ℚ)
    (prevOrder : List String) : List DriverState × List String :=
  match raceData with
  | none => ([], prevOrder)
  | some rd =>
    if (sortedStates rd raceTime).isEmpty then ([], prevOrder)
    else
      let out := (List.range (sortedStates rd raceTime).length).map
        (computeOne raceTime rd.drivers (firstSFn rd) prevOrder (sortedStates rd raceTime))
      (out, out.map (·.driverCode))

/-- Modelled from the spec: the reset operation (spec sections 5 and 6,
"Reset operation: clears carried rank-order state") is not present in
`src/` — the source keeps the carried rank order in the hook-local
`prevOrderRef` with no exposed way to clear it.  Per the spec's words the
reset clears that state, i.e. yields the empty previous order that
`prevOrderRef` also starts from. -/
def resetPrevOrder : List String := []

/- =========================
   Claim-following specification functions (written from the claim texts,
   for comparison with the source functions above)
========================= -/

/-- JavaScript `Math.round` is floor of `x + 1/2`; rounding to 3 decimal
places as in the source's `Math.round(rawGap * 1000) / 1000`. -/
def round3 (x : ℚ) : ℚ := (Int.floor (x * 1000 + 1/2) : ℚ) / 1000

/-- The gap formula as claim C1 words it: `max(0, round(raw, 3))`, with raw
gaps at or below the noise threshold `0.001` clamped to exactly zero. -/
def claimedGap (raw : ℚ) : ℚ :=
  if raw ≤ 1/1000 then 0 else max 0 (round3 raw)

/-- The inverse distance locator as claim C6 words it: first sample's time
at or below the first distance, last sample's time at or beyond the last
distance, otherwise interpolate at the **first** index `i` with
`points[i].s ≥ targetS`, returning `points[i-1].t` directly when the two
bracketing distances coincide. -/
def specFindTimeForS (points : List PositionPoint) (targetS : ℚ) : ℚ :=
  let n := points.length
  if targetS ≤ (points.getD 0 ppDflt).s then (points.getD 0 ppDflt).t
  else if (points.getD (n - 1) ppDflt).s ≤ targetS then (points.getD (n - 1) ppDflt).t
  else
    let i := points.findIdx (fun p => targetS ≤ p.s)
    let p0 := points.getD (i - 1) ppDflt
    let p1 := points.getD i ppDflt
    if p1.s = p0.s then p0.t
    else p0.t + (targetS - p0.s) / (p1.s - p0.s) * (p1.t - p0.t)

/- =========================
   Concrete datasets used by witnesses and counterexamples
========================= -/

/-- Two drivers starting together; at query time 10 the leader "LLL" has
covered 100 distance units and "BBB" 50, with the leader crossing distance
50 at time 5 — so BBB's real time gap is 5 seconds. -/
def rdPair : RaceData :=
  ⟨[], none,
   [("L", ⟨"LLL", "T", "#fff", [⟨0, 0, 1⟩, ⟨10, 100, 1⟩],
     none, none, none, none, none⟩),
    ("B", ⟨"BBB", "T", "#fff", [⟨0, 0, 1⟩, ⟨10, 50, 1⟩],
     none, none, none, none, none⟩)], none⟩

/-- Three drivers whose pairwise comparator relation is cyclic: distances
traveled at query time 10 are 0, 0.4 and 0.8 while the starting offsets are
100, 50 and 0.  Adjacent pairs (AAA,BBB) and (BBB,CCC) are 0.4 apart
(inside the 0.5 epsilon, so the starting offset decides), while (AAA,CCC)
are 0.8 apart (outside the epsilon, so distance decides) — no linear order
satisfies all three pairwise constraints at once. -/
def rdCycle : RaceData :=
  ⟨[], none,
   [("A", ⟨"AAA", "T", "#fff", [⟨0, 100, 1⟩, ⟨10, 100, 1⟩],
     none, none, none, none, none⟩),
    ("B", ⟨"BBB", "T", "#fff", [⟨0, 50, 1⟩, ⟨10, 252/5, 1⟩],
     none, none, none, none, none⟩),
    ("C", ⟨"CCC", "T", "#fff", [⟨0, 0, 1⟩, ⟨10, 4/5, 1⟩],
     none, none, none, none, none⟩)], none⟩

/- =========================
   Helper lemmas: the bracketing scan of `interpolate`
========================= -/

/-- Specification of the `while` scan of `interpolate`, stated for the call
`scanIdx raceTime (points.drop k) k`: the result `r` is the first index at
or after `k` whose sample time is not below `raceTime` (or `points.length`
when no such index exists). -/
theorem scanIdx_spec (points : List PositionPoint) (raceTime : ℚ) :
    ∀ k, k ≤ points.length →
      k ≤ scanIdx raceTime (points.drop k) k ∧
      scanIdx raceTime (points.drop k) k ≤ points.length ∧
      (∀ j, k ≤ j → j < scanIdx raceTime (points.drop k) k →
        (points.getD j ppDflt).t < raceTime) ∧
      (scanIdx raceTime (points.drop k) k < points.length →
        raceTime ≤ (points.getD (scanIdx raceTime (points.drop k) k) ppDflt).t) := by
  suffices h : ∀ m k, k ≤ points.length → points.length - k = m →
      k ≤ scanIdx raceTime (points.drop k) k ∧
      scanIdx raceTime (points.drop k) k ≤ points.length ∧
      (∀ j, k ≤ j → j < scanIdx raceTime (points.drop k) k →
        (points.getD j ppDflt).t < raceTime) ∧
      (scanIdx raceTime (points.drop k) k < points.length →
        raceTime ≤ (points.getD (scanIdx raceTime (points.drop k) k) ppDflt).t) by
    intro k hk
    exact h (points.length - k) k hk rfl
  intro m
  induction m with
  | zero =>
    intro k hk hm
    have hkl : k = points.length := by omega
    subst hkl
    rw [List.drop_length]
    refine ⟨le_refl _, le_refl _, ?_, ?_⟩
    · intro j hj hj2
      simp only [scanIdx] at hj2
      omega
    · intro h
      simp only [scanIdx] at h
      omega
  | succ m ih =>
    intro k hk hm
    have hklt : k < points.length := by omega
    have hdrop : points.drop k = points[k] :: points.drop (k + 1) :=
      List.drop_eq_getElem_cons hklt
    have hgetD : points.getD k ppDflt = points[k] := List.getD_eq_getElem points ppDflt hklt
    rw [hdrop]
    by_cases hc : (points[k]).t < raceTime
    · have hrec := ih (k + 1) (by omega) (by omega)
      simp only [scanIdx, hc, if_pos]
      refine ⟨by omega, hrec.2.1, ?_, hrec.2.2.2⟩
      intro j hj hj2
      rcases Nat.eq_or_lt_of_le hj with hjk | hjk
      · subst hjk
        rw [hgetD]
        exact hc
      · exact hrec.2.2.1 j hjk hj2
    · simp only [scanIdx, hc, if_neg, not_false_iff]
      refine ⟨le_refl _, by omega, ?_, ?_⟩
      · intro j hj hj2
        omega
      · intro _
        rw [hgetD]
        exact le_of_not_lt hc

/-- On the interior branch (strictly between the first and last sample
time), `interpolate` selects a bracketing pair `p0 = points[i-1]`,
`p1 = points[i]` with `p0.t < raceTime ≤ p1.t` — so the interpolation
denominator `p1.t - p0.t` is strictly positive — and returns the linear
interpolation of `s` with `lap` taken from `p0`. -/
theorem interpolate_bracket (points : List PositionPoint) (raceTime : ℚ)
    (hne : points ≠ [])
    (h0 : (points.getD 0 ppDflt).t < raceTime)
    (hl : raceTime < (points.getD (points.length - 1) ppDflt).t) :
    1 ≤ scanIdx raceTime (points.drop 1) 1 ∧
    scanIdx raceTime (points.drop 1) 1 ≤ points.length - 1 ∧
    (points.getD (scanIdx raceTime (points.drop 1) 1 - 1) ppDflt).t < raceTime ∧
    raceTime ≤ (points.getD (scanIdx raceTime (points.drop 1) 1) ppDflt).t ∧
    interpolate points raceTime =
      some ⟨raceTime,
        (points.getD (scanIdx raceTime (points.drop 1) 1 - 1) ppDflt).s +
          (raceTime - (points.getD (scanIdx raceTime (points.drop 1) 1 - 1) ppDflt).t) /
            ((points.getD (scanIdx raceTime (points.drop 1) 1) ppDflt).t -
              (points.getD (scanIdx raceTime (points.drop 1) 1 - 1) ppDflt).t) *
            ((points.getD (scanIdx raceTime (points.drop 1) 1) ppDflt).s -
              (points.getD (scanIdx raceTime (points.drop 1) 1 - 1) ppDflt).s),
        (points.getD (scanIdx raceTime (points.drop 1) 1 - 1) ppDflt).lap⟩ := by
  have hlen : 1 ≤ points.length := by
    cases points with
    | nil => exact absurd rfl hne
    | cons p rest => simp
  have hn2 : 2 ≤ points.length := by
    by_contra hsmall
    have h1 : points.length = 1 := by omega
    rw [h1] at hl
    exact absurd (h0.trans hl) (lt_irrefl _)
  have hspec := scanIdx_spec points raceTime 1 hlen
  set i := scanIdx raceTime (points.drop 1) 1 with hi
  have hile : i ≤ points.length - 1 := by
    by_contra hbig
    have hin : i = points.length := by omega
    have := hspec.2.2.1 (points.length - 1) (by omega) (by omega)
    exact absurd (this.trans hl) (lt_irrefl _)
  have hp0 : (points.getD (i - 1) ppDflt).t < raceTime := by
    rcases Nat.eq_or_lt_of_le hspec.1 with h1 | h1
    · rw [← h1]
      exact h0
    · exact hspec.2.2.1 (i - 1) (by omega) (by omega)
  have hp1 : raceTime ≤ (points.getD i ppDflt).t := hspec.2.2.2 (by omega)
  refine ⟨hspec.1, hile, hp0, hp1, ?_⟩
  cases points with
  | nil => exact absurd rfl hne
  | cons p rest =>
    show interpolate (p :: rest) raceTime = _
    rw [interpolate]
    · rw [if_neg (not_le.mpr h0), if_neg (not_le.mpr hl)]
    · simp

/-- C9: for every non-empty sample sequence (with the dataset invariant
that samples are sorted ascending by time), `interpolate` returns exactly
the first sample when `raceTime ≤ points[0].t` and exactly the last sample
when `raceTime ≥ points[last].t`; an out-of-range query time is thus
clamped, and the result is always a value, never an error. -/
theorem c9_interpolate_clamp (points : List PositionPoint) (raceTime : ℚ)
    (hne : points ≠ [])
    (hsorted : points.Pairwise (fun a b => a.t < b.t)) :
    (raceTime ≤ (points.getD 0 ppDflt).t →
      interpolate points raceTime = some (points.getD 0 ppDflt)) ∧
    ((points.getD (points.length - 1) ppDflt).t ≤ raceTime →
      interpolate points raceTime = some (points.getD (points.length - 1) ppDflt)) ∧
    (interpolate points raceTime).isSome = true := by
  cases points with
  | nil => exact absurd rfl hne
  | cons p rest =>
    refine ⟨?_, ?_, ?_⟩
    · intro hc
      rw [interpolate]
      · rw [if_pos hc]
      · simp
    · intro hlast
      by_cases hc : raceTime ≤ ((p :: rest).getD 0 ppDflt).t
      · have h01 : (p :: rest).getD 0 ppDflt = (p :: rest).getD ((p :: rest).length - 1) ppDflt := by
          rcases Nat.eq_zero_or_pos rest.length with hr | hr
          · rw [List.length_eq_zero] at hr
            subst hr
            rfl
          · exfalso
            have hlt : (0 : ℕ) < (p :: rest).length - 1 := by
              simp only [List.length_cons]
              omega
            have hb : (p :: rest).length - 1 < (p :: rest).length := by
              simp only [List.length_cons]
              omega
            have := (List.pairwise_iff_getElem.mp hsorted) 0 ((p :: rest).length - 1)
              (by simp only [List.length_cons]; omega) hb hlt
            rw [← List.getD_eq_getElem (p :: rest) ppDflt (by simp only [List.length_cons]; omega),
              ← List.getD_eq_getElem (p :: rest) ppDflt hb] at this
            have habs := lt_of_lt_of_le this (hlast.trans hc)
            exact lt_irrefl _ habs
        rw [interpolate]
        · rw [if_pos hc, h01]
        · simp
      · rw [interpolate]
        · rw [if_neg hc, if_pos hlast]
        · simp
    · rw [interpolate]
      · by_cases hc : raceTime ≤ ((p :: rest).getD 0 ppDflt).t
        · rw [if_pos hc]
          rfl
        · rw [if_neg hc]
          by_cases hd : ((p :: rest).getD ((p :: rest).length - 1) ppDflt).t ≤ raceTime
          · rw [if_pos hd]
            rfl
          · rw [if_neg hd]
            rfl
      · simp

/-- C9 witness: concrete clamping on both sides for a two-sample sequence. -/
theorem c9_interpolate_clamp_witness :
    interpolate [⟨0, 1, 1⟩, ⟨10, 5, 1⟩] (-3) = some ⟨0, 1, 1⟩ ∧
    interpolate [⟨0, 1, 1⟩, ⟨10, 5, 1⟩] 12 = some ⟨10, 5, 1⟩ := by
  have hne : ([⟨0, 1, 1⟩, ⟨10, 5, 1⟩] : List PositionPoint) ≠ [] := by simp
  have hs : ([⟨0, 1, 1⟩, ⟨10, 5, 1⟩] : List PositionPoint).Pairwise (fun a b => a.t < b.t) := by
    norm_num [List.pairwise_cons]
  constructor
  · have h := (c9_interpolate_clamp [⟨0, 1, 1⟩, ⟨10, 5, 1⟩] (-3) hne hs).1
    have hc : (-3 : ℚ) ≤ (([⟨0, 1, 1⟩, ⟨10, 5, 1⟩] : List PositionPoint).getD 0 ppDflt).t := by
      norm_num [List.getD, ppDflt]
    simpa using h hc
  · have h := (c9_interpolate_clamp [⟨0, 1, 1⟩, ⟨10, 5, 1⟩] 12 hne hs).2.1
    have hc : (([⟨0, 1, 1⟩, ⟨10, 5, 1⟩] : List PositionPoint).getD
        (([⟨0, 1, 1⟩, ⟨10, 5, 1⟩] : List PositionPoint).length - 1) ppDflt).t ≤ 12 := by
      norm_num [List.getD, ppDflt]
    simpa using h hc

/-- C10: the interpolators never divide by a zero-length time interval and
so never produce an undefined (NaN/Infinity) value.  For the position
interpolator, on the only branch that divides, the bracketing pair chosen by
the scan always satisfies `p0.t < raceTime ≤ p1.t`, so the divisor
`p1.t - p0.t` is strictly positive and the result is the well-defined
linear interpolation.  For the telemetry interpolator, a degenerate
bracketing pair (`dt ≤ 0`) makes `telemetryAt` fall back to the earlier
sample `p0` instead of dividing. -/
theorem c10_no_zero_length_division (points : List PositionPoint) (raceTime : ℚ)
    (hne : points ≠ [])
    (h0 : (points.getD 0 ppDflt).t < raceTime)
    (hl : raceTime < (points.getD (points.length - 1) ppDflt).t) :
    0 < (points.getD (scanIdx raceTime (points.drop 1) 1) ppDflt).t -
        (points.getD (scanIdx raceTime (points.drop 1) 1 - 1) ppDflt).t ∧
    interpolate points raceTime =
      some ⟨raceTime,
        (points.getD (scanIdx raceTime (points.drop 1) 1 - 1) ppDflt).s +
          (raceTime - (points.getD (scanIdx raceTime (points.drop 1) 1 - 1) ppDflt).t) /
            ((points.getD (scanIdx raceTime (points.drop 1) 1) ppDflt).t -
              (points.getD (scanIdx raceTime (points.drop 1) 1 - 1) ppDflt).t) *
            ((points.getD (scanIdx raceTime (points.drop 1) 1) ppDflt).s -
              (points.getD (scanIdx raceTime (points.drop 1) 1 - 1) ppDflt).s),
        (points.getD (scanIdx raceTime (points.drop 1) 1 - 1) ppDflt).lap⟩ ∧
    (∀ (tps : List TelemetryPoint) (queryT : ℚ) (j : ℤ),
      0 < j → j < (tps.length : ℤ) →
      (tps.getD j.toNat tpDflt).t - (tps.getD (j.toNat - 1) tpDflt).t ≤ 0 →
      telemetryAt tps queryT j = tps.getD (j.toNat - 1) tpDflt) := by
  have hbr := interpolate_bracket points raceTime hne h0 hl
  refine ⟨?_, hbr.2.2.2.2, ?_⟩
  · have hlo := hbr.2.2.1
    have hhi := hbr.2.2.2.1
    linarith
  · intro tps queryT j hj hjlen hdt
    rw [telemetryAt]
    rw [if_neg (by omega), if_neg (by omega)]
    exact if_pos hdt

/-- C10 witness: a concrete interior interpolation with its positive
denominator, and a concrete degenerate telemetry pair falling back to the
earlier sample. -/
theorem c10_no_zero_length_division_witness :
    interpolate [⟨0, 0, 1⟩, ⟨10, 10, 1⟩] 5 = some ⟨5, 5, 1⟩ ∧
    telemetryAt [⟨3, 1, 0, 0, 0, 0, 0, 0, 0⟩, ⟨3, 2, 0, 0, 0, 0, 0, 0, 0⟩] 7 1 =
      ⟨3, 1, 0, 0, 0, 0, 0, 0, 0⟩ := by
  have h := c10_no_zero_length_division [⟨0, 0, 1⟩, ⟨10, 10, 1⟩] 5 (by simp)
    (by norm_num [List.getD, ppDflt]) (by norm_num [List.getD, ppDflt])
  constructor
  · rw [h.2.1]
    norm_num [scanIdx, List.getD, ppDflt]
  · have ht := h.2.2 [⟨3, 1, 0, 0, 0, 0, 0, 0, 0⟩, ⟨3, 2, 0, 0, 0, 0, 0, 0, 0⟩] 7 1
      (by norm_num) (by norm_num) (by norm_num [List.getD, tpDflt])
    simpa [List.getD] using ht

/- =========================
   Helper lemmas: the binary search of the current `findTimeForS`
========================= -/

/-- Specification of the `while (low < high)` loop of the current
`findTimeForS`, on distance-monotone samples: with enough fuel, starting
from a window whose left part is all below `targetS` and whose right end is
at or above it, the loop returns the least index whose distance is at or
above `targetS`. -/
theorem bsearchAux_spec (points : List PositionPoint) (targetS : ℚ)
    (hmono : ∀ i j, i ≤ j → j < points.length →
      (points.getD i ppDflt).s ≤ (points.getD j ppDflt).s) :
    ∀ fuel low high, high - low ≤ fuel → low ≤ high → high < points.length →
      (∀ j, j < low → (points.getD j ppDflt).s < targetS) →
      targetS ≤ (points.getD high ppDflt).s →
      low ≤ bsearchAux points targetS fuel low high ∧
      bsearchAux points targetS fuel low high ≤ high ∧
      targetS ≤ (points.getD (bsearchAux points targetS fuel low high) ppDflt).s ∧
      (∀ j, j < bsearchAux points targetS fuel low high →
        (points.getD j ppDflt).s < targetS) := by
  intro fuel
  induction fuel with
  | zero =>
    intro low high hfuel hlh hhn hprev hhigh
    have : low = high := by omega
    subst this
    exact ⟨le_refl _, le_refl _, hhigh, hprev⟩
  | succ fuel ih =>
    intro low high hfuel hlh hhn hprev hhigh
    by_cases hlt : low < high
    · rw [bsearchAux]
      rw [if_pos hlt]
      set mid := (low + high) / 2 with hmid
      have hmlo : low ≤ mid := by omega
      have hmhi : mid < high := by omega
      by_cases hc : (points.getD mid ppDflt).s < targetS
      · rw [if_pos hc]
        have hrec := ih (mid + 1) high (by omega) (by omega) hhn
          (fun j hj => lt_of_le_of_lt (hmono j mid (by omega) (by omega)) hc) hhigh
        exact ⟨le_trans (by omega) hrec.1, hrec.2.1, hrec.2.2.1, hrec.2.2.2⟩
      · rw [if_neg hc]
        have hrec := ih low mid (by omega) hmlo (by omega) hprev (le_of_not_lt hc)
        exact ⟨hrec.1, le_trans hrec.2.1 (by omega), hrec.2.2.1, hrec.2.2.2⟩
    · rw [bsearchAux]
      rw [if_neg hlt]
      have : low = high := by omega
      subst this
      exact ⟨le_refl _, le_refl _, hhigh, hprev⟩

/-- On distance-monotone samples the current `findTimeForS` computes
exactly its specification `specFindTimeForS` (boundary clamps, then linear
interpolation at the first index at or above the target distance). -/
theorem findTimeForS_eq_spec (points : List PositionPoint) (targetS : ℚ)
    (hne : points ≠ [])
    (hmono : ∀ i j, i ≤ j → j < points.length →
      (points.getD i ppDflt).s ≤ (points.getD j ppDflt).s) :
    findTimeForS points targetS = specFindTimeForS points targetS := by
  cases hpts : points with
  | nil => exact absurd hpts hne
  | cons p rest =>
    subst hpts
    rw [findTimeForS, specFindTimeForS]
    · by_cases h1 : targetS ≤ ((p :: rest).getD 0 ppDflt).s
      · rw [if_pos h1, if_pos h1]
      · rw [if_neg h1, if_neg h1]
        by_cases h2 : ((p :: rest).getD ((p :: rest).length - 1) ppDflt).s ≤ targetS
        · rw [if_pos h2, if_pos h2]
        · rw [if_neg h2, if_neg h2]
          have hs0 : ((p :: rest).getD 0 ppDflt).s < targetS := lt_of_not_le h1
          have hsl : targetS < ((p :: rest).getD ((p :: rest).length - 1) ppDflt).s :=
            lt_of_not_le h2
          have hlen : 0 < (p :: rest).length := by simp
          have hb := bsearchAux_spec (p :: rest) targetS hmono
            ((p :: rest).length - 1) 0 ((p :: rest).length - 1)
            (by omega) (by omega) (by omega)
            (fun j hj => absurd hj (Nat.not_lt_zero j)) (le_of_lt hsl)
          set i := bsearchAux (p :: rest) targetS ((p :: rest).length - 1) 0
            ((p :: rest).length - 1) with hidef
          have hi0 : i ≠ 0 := by
            intro h
            rw [h] at hb
            exact absurd (lt_of_lt_of_le hs0 hb.2.2.1) (lt_irrefl _)
          have hfind : (p :: rest).findIdx (fun q => targetS ≤ q.s) = i := by
            rw [List.findIdx_eq (by omega)]
            constructor
            · rw [← List.getD_eq_getElem (p :: rest) ppDflt (by omega)]
              simpa using hb.2.2.1
            · intro j hji
              rw [← List.getD_eq_getElem (p :: rest) ppDflt (by omega)]
              simpa using hb.2.2.2 j hji
          rw [hfind]
          rw [if_neg hi0]
    · simp

/-- A pairwise non-decreasing distance invariant gives index-wise
monotonicity of `getD` distances. -/
theorem pairwise_s_mono (points : List PositionPoint)
    (h : points.Pairwise (fun a b => a.s ≤ b.s)) :
    ∀ i j, i ≤ j → j < points.length →
      (points.getD i ppDflt).s ≤ (points.getD j ppDflt).s := by
  intro i j hij hj
  rcases Nat.eq_or_lt_of_le hij with heq | hlt
  · rw [heq]
  · rw [List.getD_eq_getElem points ppDflt (lt_of_le_of_lt hij hj),
      List.getD_eq_getElem points ppDflt hj]
    exact List.pairwise_iff_getElem.mp h i j (lt_of_le_of_lt hij hj) hj hlt

/-- C6: on a non-empty sample sequence with monotone non-decreasing
distances (the dataset invariant the binary search relies on), the current
`findTimeForS` returns the first sample's time when the target distance is
at or below the first distance, the last sample's time when it is at or
beyond the last distance, and otherwise interpolates linearly between
`i-1` and `i` where `i` is the **first** index with
`points[i].s ≥ targetS`, with the equal-distance guard returning
`points[i-1].t` — i.e. it computes exactly the claim's specification
`specFindTimeForS`. -/
theorem c6_findTimeForS_first_index (points : List PositionPoint) (targetS : ℚ)
    (hne : points ≠ [])
    (hmono : points.Pairwise (fun a b => a.s ≤ b.s)) :
    findTimeForS points targetS = specFindTimeForS points targetS :=
  findTimeForS_eq_spec points targetS hne (pairwise_s_mono points hmono)

/-- C6 witness: a concrete interior lookup where the binary search agrees
with the first-index specification (both give time 3 for distance 15). -/
theorem c6_findTimeForS_first_index_witness :
    findTimeForS [⟨0, 0, 1⟩, ⟨2, 10, 1⟩, ⟨4, 20, 1⟩] 15 =
      specFindTimeForS [⟨0, 0, 1⟩, ⟨2, 10, 1⟩, ⟨4, 20, 1⟩] 15 ∧
    specFindTimeForS [⟨0, 0, 1⟩, ⟨2, 10, 1⟩, ⟨4, 20, 1⟩] 15 = 3 := by
  constructor
  · exact c6_findTimeForS_first_index [⟨0, 0, 1⟩, ⟨2, 10, 1⟩, ⟨4, 20, 1⟩] 15
      (by simp) (by norm_num [List.pairwise_cons])
  · norm_num [specFindTimeForS, List.findIdx_cons, List.getD, ppDflt]

/- =========================
   Helper lemmas: the linear scan of the earlier `findTimeForS`
========================= -/

/-- The linear scan `goOld` stops at the first element of `rest` whose
distance is at or above the target and interpolates from its predecessor
(`p0` when the hit is the very first element of `rest`). -/
theorem goOld_hit (targetS : ℚ) :
    ∀ (rest : List PositionPoint) (p0 : PositionPoint) (i : ℕ),
      i < rest.length → targetS ≤ (rest.getD i ppDflt).s →
      (∀ j, j < i → (rest.getD j ppDflt).s < targetS) →
      goOld targetS p0 rest =
        (if i = 0 then p0 else rest.getD (i - 1) ppDflt).t +
          (targetS - (if i = 0 then p0 else rest.getD (i - 1) ppDflt).s) /
            ((rest.getD i ppDflt).s - (if i = 0 then p0 else rest.getD (i - 1) ppDflt).s) *
            ((rest.getD i ppDflt).t - (if i = 0 then p0 else rest.getD (i - 1) ppDflt).t) := by
  intro rest
  induction rest with
  | nil =>
    intro p0 i hi
    exact absurd hi (by simp)
  | cons q rest' ih =>
    intro p0 i hi hhit hbefore
    cases i with
    | zero =>
      have hq : targetS ≤ q.s := by simpa using hhit
      rw [goOld]
      rw [if_pos hq]
      simp
    | succ i' =>
      have hq : q.s < targetS := by simpa using hbefore 0 (Nat.succ_pos i')
      rw [goOld]
      rw [if_neg (not_le.mpr hq)]
      have hrec := ih q i' (by simpa using hi) (by simpa using hhit)
        (fun j hj => by simpa using hbefore (j + 1) (by omega))
      rw [hrec]
      cases i' with
      | zero => simp
      | succ i'' => simp

/-- Strictly increasing distances, index-wise. -/
theorem pairwise_s_strict (points : List PositionPoint)
    (h : points.Pairwise (fun a b => a.s < b.s)) :
    ∀ i j, i < j → j < points.length →
      (points.getD i ppDflt).s < (points.getD j ppDflt).s := by
  intro i j hij hj
  rw [List.getD_eq_getElem points ppDflt (lt_trans hij hj),
    List.getD_eq_getElem points ppDflt hj]
  exact List.pairwise_iff_getElem.mp h i j (lt_trans hij hj) hj hij

/-- On a non-empty sequence with strictly increasing distances and a target
distance within the sequence's distance bounds, the earlier linear-scan
`findTimeForS` also computes the specification `specFindTimeForS`. -/
theorem findTimeForS_old_eq_spec (points : List PositionPoint) (targetS : ℚ)
    (hne : points ≠ [])
    (hstrict : points.Pairwise (fun a b => a.s < b.s))
    (hlo : (points.getD 0 ppDflt).s ≤ targetS)
    (hhi : targetS ≤ (points.getD (points.length - 1) ppDflt).s) :
    findTimeForS_old points targetS = specFindTimeForS points targetS := by
  cases hpts : points with
  | nil => exact absurd hpts hne
  | cons p rest =>
    subst hpts
    by_cases h1 : targetS ≤ ((p :: rest).getD 0 ppDflt).s
    · -- target at the first sample: both return the first time
      have heq : targetS = p.s := le_antisymm h1 (by simpa using hlo)
      rw [specFindTimeForS, if_pos h1]
      cases rest with
      | nil =>
        rw [findTimeForS_old, goOld]
        simp [ppDflt]
      | cons q rest' =>
        have hs01 : p.s < q.s := by
          have := pairwise_s_strict (p :: q :: rest') hstrict 0 1 (by omega)
            (by simp only [List.length_cons]; omega)
          simpa using this
        rw [findTimeForS_old]
        rw [goOld_hit targetS (q :: rest') p 0 (by simp) (by simpa using le_of_lt (heq ▸ hs01))
          (fun j hj => absurd hj (Nat.not_lt_zero j))]
        simp only [if_pos rfl]
        rw [heq]
        simp [ppDflt]
    · rw [specFindTimeForS, if_neg h1]
      have hs0lt : ((p :: rest).getD 0 ppDflt).s < targetS := lt_of_not_le h1
      by_cases h2 : ((p :: rest).getD ((p :: rest).length - 1) ppDflt).s ≤ targetS
      · -- target at the last sample: the scan hits the last index with ratio 1
        have heq : targetS = ((p :: rest).getD ((p :: rest).length - 1) ppDflt).s :=
          le_antisymm hhi h2
        rw [if_pos h2]
        have hr1 : 1 ≤ rest.length := by
          by_contra hsmall
          have hr0 : rest.length = 0 := by omega
          have hl1 : (p :: rest).length = 1 := by simp only [List.length_cons]; omega
          rw [hl1] at heq
          exact absurd (heq ▸ hs0lt) (lt_irrefl _)
        have hgetshift : ∀ k, rest.getD k ppDflt = (p :: rest).getD (k + 1) ppDflt := by
          intro k
          simp [List.getD_cons_succ]
        have hhit : targetS ≤ (rest.getD (rest.length - 1) ppDflt).s := by
          rw [hgetshift]
          have : rest.length - 1 + 1 = (p :: rest).length - 1 := by
            simp only [List.length_cons]; omega
          rw [this, ← heq]
        have hbef : ∀ j, j < rest.length - 1 → (rest.getD j ppDflt).s < targetS := by
          intro j hj
          rw [hgetshift, heq]
          have : j + 1 < (p :: rest).length - 1 := by simp only [List.length_cons]; omega
          exact pairwise_s_strict (p :: rest) hstrict (j + 1) ((p :: rest).length - 1)
            this (by simp only [List.length_cons]; omega)
        rw [findTimeForS_old]
        rw [goOld_hit targetS rest p (rest.length - 1) (by omega) hhit hbef]
        have hlasteq : (rest.getD (rest.length - 1) ppDflt) =
            ((p :: rest).getD ((p :: rest).length - 1) ppDflt) := by
          rw [hgetshift]
          congr 1
          simp only [List.length_cons]
          omega
        have hpprev : (if rest.length - 1 = 0 then p else rest.getD (rest.length - 1 - 1) ppDflt) =
            (p :: rest).getD (rest.length - 1) ppDflt := by
          by_cases hk0 : rest.length - 1 = 0
          · rw [if_pos hk0, hk0]
            rfl
          · rw [if_neg hk0, hgetshift]
            congr 1
            omega
        have hprevlt : (((p :: rest).getD (rest.length - 1) ppDflt)).s <
            (((p :: rest).getD ((p :: rest).length - 1) ppDflt)).s := by
          apply pairwise_s_strict (p :: rest) hstrict (rest.length - 1) ((p :: rest).length - 1)
          · simp only [List.length_cons]
            omega
          · simp only [List.length_cons]
            omega
        rw [hpprev, hlasteq, heq]
        rw [div_self (sub_ne_zero.mpr (ne_of_gt hprevlt))]
        ring
      · -- interior: both interpolate at the first index at or above the target
        rw [if_neg h2]
        have htlt : targetS < ((p :: rest).getD ((p :: rest).length - 1) ppDflt).s :=
          lt_of_not_le h2
        have hex : ∃ x ∈ (p :: rest), targetS ≤ x.s := by
          refine ⟨(p :: rest).getD ((p :: rest).length - 1) ppDflt, ?_, le_of_lt htlt⟩
          rw [List.getD_eq_getElem (p :: rest) ppDflt (by simp only [List.length_cons]; omega)]
          exact List.getElem_mem _
        have hfl : (p :: rest).findIdx (fun q => targetS ≤ q.s) < (p :: rest).length :=
          List.findIdx_lt_length_of_exists (by simpa using hex)
        set i := (p :: rest).findIdx (fun q => targetS ≤ q.s) with hidef
        have hiprop := (List.findIdx_eq hfl).mp rfl
        have hhit : targetS ≤ ((p :: rest).getD i ppDflt).s := by
          rw [List.getD_eq_getElem (p :: rest) ppDflt hfl]
          simpa using hiprop.1
        have hbefore : ∀ j, j < i → ((p :: rest).getD j ppDflt).s < targetS := by
          intro j hj
          rw [List.getD_eq_getElem (p :: rest) ppDflt (lt_trans hj hfl)]
          have := hiprop.2 j hj
          simpa using this
        have hi1 : 1 ≤ i := by
          rcases Nat.eq_zero_or_pos i with h0 | h0
          · exfalso
            rw [h0] at hhit
            exact absurd (lt_of_lt_of_le hs0lt hhit) (lt_irrefl _)
          · exact h0
        have hgetshift : ∀ k, rest.getD k ppDflt = (p :: rest).getD (k + 1) ppDflt := by
          intro k
          simp [List.getD_cons_succ]
        have hirest : i - 1 < rest.length := by
          simp only [List.length_cons] at hfl
          omega
        rw [findTimeForS_old]
        rw [goOld_hit targetS rest p (i - 1) hirest
          (by rw [hgetshift]; have : i - 1 + 1 = i := by omega
              rw [this]; exact hhit)
          (fun j hj => by
            rw [hgetshift]
            exact hbefore (j + 1) (by omega))]
        have hguard : ¬ ((p :: rest).getD i ppDflt).s = ((p :: rest).getD (i - 1) ppDflt).s := by
          have := hbefore (i - 1) (by omega)
          exact ne_of_gt (lt_of_lt_of_le this hhit)
        rw [if_neg hguard]
        rcases Nat.eq_or_lt_of_le hi1 with h1' | h1'
        · -- i = 1 : predecessor is the head `p`
          rw [if_pos (by omega : i - 1 = 0)]
          have hg1 : rest.getD (i - 1) ppDflt = (p :: rest).getD i ppDflt := by
            rw [hgetshift]
            congr 1
            omega
          have hg0 : (p :: rest).getD (i - 1) ppDflt = p := by
            rw [show i - 1 = 0 by omega]
            rfl
          rw [hg1, hg0]
        · rw [if_neg (by omega : ¬ (i - 1 = 0))]
          have hga : rest.getD (i - 1) ppDflt = (p :: rest).getD i ppDflt := by
            rw [hgetshift]
            congr 1
            omega
          have hgb : rest.getD (i - 1 - 1) ppDflt = (p :: rest).getD (i - 1) ppDflt := by
            rw [hgetshift]
            congr 1
            omega
          rw [hga, hgb]

/-- C7 counterexample: below the first sample's distance the two revisions
disagree — the linear-scan revision extrapolates (giving time −10 here)
while the binary-search revision clamps to the first sample's time (0), so
they are not equal on every sample sequence and target distance "including
at and outside the distance boundaries". -/
theorem c7_counterexample :
    findTimeForS_old [⟨0, 10, 1⟩, ⟨10, 20, 1⟩] 0 = -10 ∧
    findTimeForS [⟨0, 10, 1⟩, ⟨10, 20, 1⟩] 0 = 0 ∧
    findTimeForS_old [⟨0, 10, 1⟩, ⟨10, 20, 1⟩] 0 ≠
      findTimeForS [⟨0, 10, 1⟩, ⟨10, 20, 1⟩] 0 := by
  have h1 : findTimeForS_old [⟨0, 10, 1⟩, ⟨10, 20, 1⟩] 0 = -10 := by
    norm_num [findTimeForS_old, goOld]
  have h2 : findTimeForS [⟨0, 10, 1⟩, ⟨10, 20, 1⟩] 0 = 0 := by
    norm_num [findTimeForS, List.getD, ppDflt]
  refine ⟨h1, h2, ?_⟩
  rw [h1, h2]
  norm_num

/-- C7 (amended): on a non-empty sample sequence with strictly increasing
distances and a target distance within the sequence's distance bounds
(inclusive), the binary-search revision of `findTimeForS` and the
linear-scan revision return the same time.  Outside the lower distance
boundary the linear scan extrapolates while the binary search clamps (see
the counterexample), so the agreement cannot extend outside the bounds. -/
theorem c7_binary_linear_agree (points : List PositionPoint) (targetS : ℚ)
    (hne : points ≠ [])
    (hstrict : points.Pairwise (fun a b => a.s < b.s))
    (hlo : (points.getD 0 ppDflt).s ≤ targetS)
    (hhi : targetS ≤ (points.getD (points.length - 1) ppDflt).s) :
    findTimeForS points targetS = findTimeForS_old points targetS := by
  rw [findTimeForS_eq_spec points targetS hne
    (pairwise_s_mono points (hstrict.imp (fun h => le_of_lt h)))]
  rw [findTimeForS_old_eq_spec points targetS hne hstrict hlo hhi]

/-- C7 witness: concrete agreement of the two revisions at an interior
target distance. -/
theorem c7_binary_linear_agree_witness :
    findTimeForS [⟨0, 0, 1⟩, ⟨2, 10, 1⟩, ⟨4, 20, 1⟩] 15 =
      findTimeForS_old [⟨0, 0, 1⟩, ⟨2, 10, 1⟩, ⟨4, 20, 1⟩] 15 ∧
    findTimeForS_old [⟨0, 0, 1⟩, ⟨2, 10, 1⟩, ⟨4, 20, 1⟩] 15 = 3 := by
  constructor
  · exact c7_binary_linear_agree [⟨0, 0, 1⟩, ⟨2, 10, 1⟩, ⟨4, 20, 1⟩] 15 (by simp)
      (by norm_num [List.pairwise_cons]) (by norm_num [List.getD, ppDflt])
      (by norm_num [List.getD, ppDflt])
  · norm_num [findTimeForS_old, goOld]

/-- Boundary clamp of `interpolate` at the low end, as an equation. -/
theorem interpolate_clamp_lo (p : PositionPoint) (rest : List PositionPoint) (t : ℚ)
    (h : t ≤ ((p :: rest).getD 0 ppDflt).t) :
    interpolate (p :: rest) t = some ((p :: rest).getD 0 ppDflt) := by
  rw [interpolate]
  · rw [if_pos h]
  · simp

/-- Boundary clamp of `interpolate` at the high end, as an equation. -/
theorem interpolate_clamp_hi (p : PositionPoint) (rest : List PositionPoint) (t : ℚ)
    (h1 : ¬ t ≤ ((p :: rest).getD 0 ppDflt).t)
    (h2 : ((p :: rest).getD ((p :: rest).length - 1) ppDflt).t ≤ t) :
    interpolate (p :: rest) t = some ((p :: rest).getD ((p :: rest).length - 1) ppDflt) := by
  rw [interpolate]
  · rw [if_neg h1, if_pos h2]
  · simp

/-- Boundary clamp of `findTimeForS` at the low end, as an equation. -/
theorem findTimeForS_clamp_lo (p : PositionPoint) (rest : List PositionPoint) (targetS : ℚ)
    (h : targetS ≤ ((p :: rest).getD 0 ppDflt).s) :
    findTimeForS (p :: rest) targetS = ((p :: rest).getD 0 ppDflt).t := by
  rw [findTimeForS]
  · rw [if_pos h]
  · simp

/-- Boundary clamp of `findTimeForS` at the high end, as an equation. -/
theorem findTimeForS_clamp_hi (p : PositionPoint) (rest : List PositionPoint) (targetS : ℚ)
    (h1 : ¬ targetS ≤ ((p :: rest).getD 0 ppDflt).s)
    (h2 : ((p :: rest).getD ((p :: rest).length - 1) ppDflt).s ≤ targetS) :
    findTimeForS (p :: rest) targetS = ((p :: rest).getD ((p :: rest).length - 1) ppDflt).t := by
  rw [findTimeForS]
  · rw [if_neg h1, if_pos h2]
  · simp

/-- C8 counterexample: with a merely non-decreasing (here constant)
distance curve, the round trip fails by far more than any floating
tolerance — the samples `[(t=0,s=5),(t=10,s=5)]` are sorted by time with
monotone non-decreasing distance and `t = 5` is inside the time range, yet
`interpolate` gives distance 5 and `findTimeForS` maps distance 5 back to
time 0, not ≈ 5. -/
theorem c8_counterexample :
    interpolate [⟨0, 5, 1⟩, ⟨10, 5, 1⟩] 5 = some ⟨5, 5, 1⟩ ∧
    findTimeForS [⟨0, 5, 1⟩, ⟨10, 5, 1⟩] 5 = 0 := by
  constructor
  · norm_num [interpolate, scanIdx, List.getD, ppDflt]
  · norm_num [findTimeForS, List.getD, ppDflt]

/-- C8 (amended): for a non-empty sample sequence sorted ascending by time
with **strictly increasing** distance, and a query time within the
sequence's time range, the round trip is exact:
`findTimeForS points (interpolate points t).s = t`.  (With merely
non-decreasing distance the round trip can be off by an arbitrary amount on
a distance plateau, see the counterexample.) -/
theorem c8_round_trip_exact (points : List PositionPoint) (t : ℚ)
    (hne : points ≠ [])
    (htime : points.Pairwise (fun a b => a.t ≤ b.t))
    (hs : points.Pairwise (fun a b => a.s < b.s))
    (hlo : (points.getD 0 ppDflt).t ≤ t)
    (hhi : t ≤ (points.getD (points.length - 1) ppDflt).t) :
    ∀ r, interpolate points t = some r → findTimeForS points r.s = t := by
  intro r hr
  have hmono := pairwise_s_mono points (hs.imp (fun h => le_of_lt h))
  have hstrictIdx := pairwise_s_strict points hs
  cases hptseq : points with
  | nil => exact absurd hptseq hne
  | cons p rest =>
    subst hptseq
    by_cases hc1 : t ≤ ((p :: rest).getD 0 ppDflt).t
    · -- clamped to the first sample
      have ht0 : t = ((p :: rest).getD 0 ppDflt).t := le_antisymm hc1 hlo
      rw [interpolate_clamp_lo p rest t hc1] at hr
      have hr' : r = (p :: rest).getD 0 ppDflt := (Option.some.inj hr).symm
      rw [hr']
      rw [findTimeForS_clamp_lo p rest _ (le_refl _)]
      exact ht0.symm
    · by_cases hc2 : ((p :: rest).getD ((p :: rest).length - 1) ppDflt).t ≤ t
      · -- clamped to the last sample
        have hn2 : 2 ≤ (p :: rest).length := by
          by_contra hsmall
          have h1 : (p :: rest).length = 1 := by
            simp only [List.length_cons] at hsmall ⊢
            omega
          rw [h1] at hc2
          exact hc1 (hhi.trans (by rw [h1]))
        rw [interpolate_clamp_hi p rest t hc1 hc2] at hr
        have hr' : r = (p :: rest).getD ((p :: rest).length - 1) ppDflt :=
          (Option.some.inj hr).symm
        have hlastt : ((p :: rest).getD ((p :: rest).length - 1) ppDflt).t = t :=
          le_antisymm hc2 hhi
        rw [hr']
        have h0l : ((p :: rest).getD 0 ppDflt).s <
            ((p :: rest).getD ((p :: rest).length - 1) ppDflt).s := by
          apply hstrictIdx 0 ((p :: rest).length - 1)
          · simp only [List.length_cons] at hn2 ⊢
            omega
          · simp only [List.length_cons]
            omega
        rw [findTimeForS_clamp_hi p rest _ (not_le.mpr h0l) (le_refl _)]
        exact hlastt
      · -- interior: exact inversion of the interpolation
        have hbr := interpolate_bracket (p :: rest) t (by simp)
          (lt_of_not_le hc1) (lt_of_not_le hc2)
        set i := scanIdx t ((p :: rest).drop 1) 1 with hidef
        rw [hbr.2.2.2.2] at hr
        have hr' := (Option.some.inj hr).symm
        have hi1 : 1 ≤ i := hbr.1
        have hin : i ≤ (p :: rest).length - 1 := hbr.2.1
        have hp0t : ((p :: rest).getD (i - 1) ppDflt).t < t := hbr.2.2.1
        have hp1t : t ≤ ((p :: rest).getD i ppDflt).t := hbr.2.2.2.1
        set q0 := (p :: rest).getD (i - 1) ppDflt with hq0
        set q1 := (p :: rest).getD i ppDflt with hq1
        have hdt : 0 < q1.t - q0.t := by linarith
        have hds : 0 < q1.s - q0.s := by
          have := hstrictIdx (i - 1) i (by omega) (by simp only [List.length_cons] at hin ⊢; omega)
          rw [← hq0, ← hq1] at this
          linarith
        set ρ := (t - q0.t) / (q1.t - q0.t) with hρ
        have hρpos : 0 < ρ := div_pos (by linarith) hdt
        have hρle : ρ ≤ 1 := by
          rw [hρ, div_le_one hdt]
          linarith
        have hrs : r.s = q0.s + ρ * (q1.s - q0.s) := by rw [hr']
        have hrs_lo : q0.s < r.s := by
          rw [hrs]
          have : 0 < ρ * (q1.s - q0.s) := mul_pos hρpos hds
          linarith
        have hrs_hi : r.s ≤ q1.s := by
          rw [hrs]
          have h1 : ρ * (q1.s - q0.s) ≤ 1 * (q1.s - q0.s) :=
            mul_le_mul_of_nonneg_right hρle (le_of_lt hds)
          linarith
        -- the target is strictly inside the distance bounds
        have hs0r : ((p :: rest).getD 0 ppDflt).s < r.s := by
          rcases Nat.eq_or_lt_of_le hi1 with h1' | h1'
          · rw [hq0, ← h1'] at hrs_lo
            simpa using hrs_lo
          · have := hmono 0 (i - 1) (by omega) (by simp only [List.length_cons] at hin ⊢; omega)
            rw [← hq0] at this
            linarith
        have hrlast : r.s < ((p :: rest).getD ((p :: rest).length - 1) ppDflt).s := by
          rcases Nat.eq_or_lt_of_le hin with heq | hlt
          · -- i is the last index: equality r.s = s_last would force t = t_last
            rcases lt_or_eq_of_le hrs_hi with hlt2 | heq2
            · rw [hq1, heq] at hlt2
              exact hlt2
            · exfalso
              have hρ1 : ρ = 1 := by
                have : q0.s + ρ * (q1.s - q0.s) = q1.s := by rw [← hrs, heq2]
                have h2 : ρ * (q1.s - q0.s) = 1 * (q1.s - q0.s) := by linarith
                exact mul_right_cancel₀ (ne_of_gt hds) h2
              have htq1 : t = q1.t := by
                rw [hρ] at hρ1
                have := (div_eq_one_iff_eq (ne_of_gt hdt)).mp hρ1
                linarith
              rw [hq1, heq] at htq1
              rw [htq1] at hc2
              exact hc2 (le_refl _)
          · have := hstrictIdx i ((p :: rest).length - 1) hlt
              (by simp only [List.length_cons]; omega)
            rw [← hq1] at this
            linarith
        -- evaluate findTimeForS at r.s through its specification
        rw [findTimeForS_eq_spec (p :: rest) r.s (by simp) hmono]
        rw [specFindTimeForS]
        rw [if_neg (not_le.mpr hs0r), if_neg (not_le.mpr hrlast)]
        have hfind : (p :: rest).findIdx (fun q => r.s ≤ q.s) = i := by
          rw [List.findIdx_eq (by simp only [List.length_cons] at hin ⊢; omega)]
          constructor
          · rw [← List.getD_eq_getElem (p :: rest) ppDflt
              (by simp only [List.length_cons] at hin ⊢; omega), ← hq1]
            simpa using hrs_hi
          · intro j hji
            rw [← List.getD_eq_getElem (p :: rest) ppDflt
              (by simp only [List.length_cons] at hin ⊢; omega)]
            have hjle : (((p :: rest).getD j ppDflt)).s ≤ q0.s := by
              rcases Nat.eq_or_lt_of_le (by omega : j ≤ i - 1) with hj' | hj'
              · rw [hq0, ← hj']
              · have := hmono j (i - 1) (by omega)
                  (by simp only [List.length_cons] at hin ⊢; omega)
                rw [← hq0] at this
                exact this
            simpa using lt_of_le_of_lt hjle hrs_lo
        rw [hfind]
        have hguard : ¬ ((p :: rest).getD i ppDflt).s = ((p :: rest).getD (i - 1) ppDflt).s := by
          rw [← hq0, ← hq1]
          linarith
        rw [if_neg hguard]
        rw [← hq0, ← hq1, hrs]
        have hsimp : q0.s + ρ * (q1.s - q0.s) - q0.s = ρ * (q1.s - q0.s) := by ring
        rw [hsimp]
        rw [mul_div_assoc, div_self (ne_of_gt hds), mul_one]
        rw [hρ, div_mul_eq_mul_div, mul_comm, ← div_mul_eq_mul_div,
          div_self (ne_of_gt hdt), one_mul]
        ring

/-- C8 witness: a concrete exact round trip at an interior query time. -/
theorem c8_round_trip_exact_witness :
    interpolate [⟨0, 0, 1⟩, ⟨2, 10, 1⟩, ⟨4, 20, 1⟩] 3 = some ⟨3, 15, 1⟩ ∧
    findTimeForS [⟨0, 0, 1⟩, ⟨2, 10, 1⟩, ⟨4, 20, 1⟩] (15 : ℚ) = 3 := by
  have hintp : interpolate [⟨0, 0, 1⟩, ⟨2, 10, 1⟩, ⟨4, 20, 1⟩] 3 = some ⟨3, 15, 1⟩ := by
    norm_num [interpolate, scanIdx, List.getD, ppDflt]
  refine ⟨hintp, ?_⟩
  have h := c8_round_trip_exact [⟨0, 0, 1⟩, ⟨2, 10, 1⟩, ⟨4, 20, 1⟩] 3 (by simp)
    (by norm_num [List.pairwise_cons]) (by norm_num [List.pairwise_cons])
    (by norm_num [List.getD, ppDflt]) (by norm_num [List.getD, ppDflt])
    ⟨3, 15, 1⟩ hintp
  simpa using h

/-- A truthy nullable number is `some` of its default-read value. -/
theorem truthyOpt_eq_some (x : Option ℚ) (h : truthyOpt x = true) :
    x = some (x.getD 0) := by
  cases x with
  | none => simp [truthyOpt] at h
  | some v => rfl

/-- C5: a sector's duration appears in the output only once the query time
has reached the lap start plus the cumulative durations of that sector and
all preceding sectors (the durations shown are exactly the lap record's),
and consequently — for non-negative recorded durations — sector 2 is never
revealed while sector 1 is unrevealed, and sector 3 never precedes
sector 2. -/
theorem c5_sector_reveal_order (lapData : LapData) (globalBest : SectorBests)
    (personalBest : SectorBestsOpt) (raceTime : ℚ)
    (hd2 : ∀ x, lapData.s2 = some x → 0 ≤ x)
    (hd3 : ∀ x, lapData.s3 = some x → 0 ≤ x) :
    (∀ d c, (computeSectors lapData globalBest personalBest raceTime).s1 = some ⟨d, c⟩ →
      lapData.s1 = some d ∧ lapData.startTime + d ≤ raceTime) ∧
    (∀ d c, (computeSectors lapData globalBest personalBest raceTime).s2 = some ⟨d, c⟩ →
      lapData.s2 = some d ∧ lapData.startTime + lapData.s1.getD 0 + d ≤ raceTime) ∧
    (∀ d c, (computeSectors lapData globalBest personalBest raceTime).s3 = some ⟨d, c⟩ →
      lapData.s3 = some d ∧
        lapData.startTime + lapData.s1.getD 0 + lapData.s2.getD 0 + d ≤ raceTime) ∧
    ((computeSectors lapData globalBest personalBest raceTime).s2 ≠ none →
      (computeSectors lapData globalBest personalBest raceTime).s1 ≠ none) ∧
    ((computeSectors lapData globalBest personalBest raceTime).s3 ≠ none →
      (computeSectors lapData globalBest personalBest raceTime).s2 ≠ none) := by
  simp only [computeSectors]
  refine ⟨?_, ?_, ?_, ?_, ?_⟩
  · intro d c
    by_cases hA : truthyOpt lapData.s1 = true ∧ lapData.startTime + lapData.s1.getD 0 ≤ raceTime
    · rw [if_pos hA]
      intro h
      have hd : d = lapData.s1.getD 0 := by
        have := (Option.some.inj h)
        exact (congrArg SectorState.time this).symm
      subst hd
      exact ⟨truthyOpt_eq_some _ hA.1, hA.2⟩
    · rw [if_neg hA]
      intro h
      exact absurd h (by simp)
  · intro d c
    by_cases hB : truthyOpt lapData.s1 = true ∧ truthyOpt lapData.s2 = true ∧
        lapData.startTime + lapData.s1.getD 0 + lapData.s2.getD 0 ≤ raceTime
    · rw [if_pos hB]
      intro h
      have hd : d = lapData.s2.getD 0 := by
        have := (Option.some.inj h)
        exact (congrArg SectorState.time this).symm
      subst hd
      exact ⟨truthyOpt_eq_some _ hB.2.1, hB.2.2⟩
    · rw [if_neg hB]
      intro h
      exact absurd h (by simp)
  · intro d c
    by_cases hC : truthyOpt lapData.s1 = true ∧ truthyOpt lapData.s2 = true ∧
        truthyOpt lapData.s3 = true ∧
        lapData.startTime + lapData.s1.getD 0 + lapData.s2.getD 0 + lapData.s3.getD 0 ≤ raceTime
    · rw [if_pos hC]
      intro h
      have hd : d = lapData.s3.getD 0 := by
        have := (Option.some.inj h)
        exact (congrArg SectorState.time this).symm
      subst hd
      exact ⟨truthyOpt_eq_some _ hC.2.2.1, hC.2.2.2⟩
    · rw [if_neg hC]
      intro h
      exact absurd h (by simp)
  · by_cases hB : truthyOpt lapData.s1 = true ∧ truthyOpt lapData.s2 = true ∧
        lapData.startTime + lapData.s1.getD 0 + lapData.s2.getD 0 ≤ raceTime
    · intro _
      have h2nn : 0 ≤ lapData.s2.getD 0 := hd2 _ (truthyOpt_eq_some _ hB.2.1)
      have hA : truthyOpt lapData.s1 = true ∧
          lapData.startTime + lapData.s1.getD 0 ≤ raceTime :=
        ⟨hB.1, by linarith [hB.2.2]⟩
      rw [if_pos hA]
      simp
    · rw [if_neg hB]
      intro h
      exact absurd rfl h
  · by_cases hC : truthyOpt lapData.s1 = true ∧ truthyOpt lapData.s2 = true ∧
        truthyOpt lapData.s3 = true ∧
        lapData.startTime + lapData.s1.getD 0 + lapData.s2.getD 0 + lapData.s3.getD 0 ≤ raceTime
    · intro _
      have h3nn : 0 ≤ lapData.s3.getD 0 := hd3 _ (truthyOpt_eq_some _ hC.2.2.1)
      have hB : truthyOpt lapData.s1 = true ∧ truthyOpt lapData.s2 = true ∧
          lapData.startTime + lapData.s1.getD 0 + lapData.s2.getD 0 ≤ raceTime :=
        ⟨hC.1, hC.2.1, by linarith [hC.2.2.2]⟩
      rw [if_pos hB]
      simp
    · rw [if_neg hC]
      intro h
      exact absurd rfl h

/-- C5 witness: a lap record with sectors 10/20/30 starting at time 100,
queried at time 131 — sectors 1 and 2 (cumulative thresholds 110 and 130)
are revealed, sector 3 (threshold 160) is not. -/
theorem c5_sector_reveal_order_witness :
    (computeSectors ⟨1, 100, some 10, some 20, some 30⟩ ⟨10, 20, 30⟩
      ⟨none, none, none⟩ 131).s1 = some ⟨10, .purple⟩ ∧
    (computeSectors ⟨1, 100, some 10, some 20, some 30⟩ ⟨10, 20, 30⟩
      ⟨none, none, none⟩ 131).s2 = some ⟨20, .purple⟩ ∧
    (computeSectors ⟨1, 100, some 10, some 20, some 30⟩ ⟨10, 20, 30⟩
      ⟨none, none, none⟩ 131).s3 = none ∧
    ((100 : ℚ) + 10 ≤ 131 ∧ (100 : ℚ) + 10 + 20 ≤ 131 ∧ ¬ ((100 : ℚ) + 10 + 20 + 30 ≤ 131)) ∧
    (∀ d c, (computeSectors ⟨1, 100, some 10, some 20, some 30⟩ ⟨10, 20, 30⟩
        ⟨none, none, none⟩ 131).s2 = some ⟨d, c⟩ →
      (some 20 : Option ℚ) = some d ∧ (100 : ℚ) + (some (10:ℚ)).getD 0 + d ≤ 131) := by
  have hout : computeSectors ⟨1, 100, some 10, some 20, some 30⟩ ⟨10, 20, 30⟩
      ⟨none, none, none⟩ 131 = ⟨some ⟨10, .purple⟩, some ⟨20, .purple⟩, none⟩ := by
    norm_num [computeSectors, truthyOpt, getColor]
  refine ⟨by rw [hout], by rw [hout], by rw [hout], by norm_num, ?_⟩
  have h := (c5_sector_reveal_order ⟨1, 100, some 10, some 20, some 30⟩ ⟨10, 20, 30⟩
    ⟨none, none, none⟩ 131 (by intro x hx; injection hx with h'; rw [← h']; norm_num)
    (by intro x hx; injection hx with h'; rw [← h']; norm_num)).2.1
  intro d c hdc
  simpa using h d c hdc

/- =========================
   Helper lemmas: the reducer pipeline
========================= -/

/-- When the ranked list is non-empty, the snapshot is the indexed map of
`computeOne` over it. -/
theorem raceState_fst (rd : RaceData) (raceTime : ℚ) (prevOrder : List String)
    (hne : sortedStates rd raceTime ≠ []) :
    (raceState (some rd) raceTime prevOrder).1 =
      (List.range (sortedStates rd raceTime).length).map
        (computeOne raceTime rd.drivers (firstSFn rd) prevOrder
          (sortedStates rd raceTime)) := by
  rw [raceState]
  rw [if_neg (by simpa [List.isEmpty_iff] using hne)]

/-- A non-empty snapshot forces a non-empty ranked list. -/
theorem raceState_fst_ne (rd : RaceData) (raceTime : ℚ) (prevOrder : List String)
    (hne : (raceState (some rd) raceTime prevOrder).1 ≠ []) :
    sortedStates rd raceTime ≠ [] := by
  intro h
  apply hne
  rw [raceState]
  rw [if_pos (by simpa [List.isEmpty_iff] using h)]

/-- Indexing the snapshot is `computeOne` at that index. -/
theorem raceState_getD (rd : RaceData) (raceTime : ℚ) (prevOrder : List String)
    (i : ℕ) (hne : sortedStates rd raceTime ≠ [])
    (hi : i < (sortedStates rd raceTime).length) :
    (raceState (some rd) raceTime prevOrder).1.getD i dsDflt =
      computeOne raceTime rd.drivers (firstSFn rd) prevOrder
        (sortedStates rd raceTime) i := by
  rw [raceState_fst rd raceTime prevOrder hne]
  rw [List.getD_eq_getElem _ dsDflt (by simpa using hi)]
  simp

/-- The length of the snapshot equals the number of ranked states. -/
theorem raceState_length (rd : RaceData) (raceTime : ℚ) (prevOrder : List String)
    (hne : sortedStates rd raceTime ≠ []) :
    (raceState (some rd) raceTime prevOrder).1.length =
      (sortedStates rd raceTime).length := by
  rw [raceState_fst rd raceTime prevOrder hne]
  simp

/-- `computeOne` keeps the underlying state's identity and position fields;
only `gap`, `interval` and `positionChange` are rewritten. -/
theorem computeOne_fields (raceTime : ℚ) (drivers : List (String × DriverData))
    (firstS : String → ℚ) (prevOrder : List String)
    (sorted : List DriverState) (idx : ℕ) :
    (computeOne raceTime drivers firstS prevOrder sorted idx).driverCode =
      (sorted.getD idx dsDflt).driverCode ∧
    (computeOne raceTime drivers firstS prevOrder sorted idx).s =
      (sorted.getD idx dsDflt).s ∧
    (computeOne raceTime drivers firstS prevOrder sorted idx).dist =
      (sorted.getD idx dsDflt).dist := by
  simp only [computeOne]
  by_cases h0 : idx = 0
  · rw [if_pos h0]
    exact ⟨rfl, rfl, rfl⟩
  · rw [if_neg h0]
    cases hfind : drivers.find?
        (fun e => decide (e.2.driverCode = (sorted.getD 0 dsDflt).driverCode)) with
    | none => exact ⟨rfl, rfl, rfl⟩
    | some le =>
      cases hfind2 : drivers.find?
          (fun e => decide (e.2.driverCode = (sorted.getD (idx - 1) dsDflt).driverCode)) with
      | none => exact ⟨rfl, rfl, rfl⟩
      | some ae => exact ⟨rfl, rfl, rfl⟩

/-- C2: in every snapshot of the current engine, the top-ranked competitor
has `gap = 0` and `interval = 0`. -/
theorem c2_leader_gap_interval_zero (rd : RaceData) (raceTime : ℚ)
    (prevOrder : List String)
    (hne : (raceState (some rd) raceTime prevOrder).1 ≠ []) :
    ((raceState (some rd) raceTime prevOrder).1.getD 0 dsDflt).gap = 0 ∧
    ((raceState (some rd) raceTime prevOrder).1.getD 0 dsDflt).interval = 0 := by
  have hs := raceState_fst_ne rd raceTime prevOrder hne
  have hlen : 0 < (sortedStates rd raceTime).length := List.length_pos.mpr hs
  rw [raceState_getD rd raceTime prevOrder 0 hs hlen]
  simp [computeOne]

/-- C2 witness: the one-driver snapshot has a leader with zero gap and
interval. -/
theorem c2_leader_gap_interval_zero_witness :
    ((raceState (some ⟨[], none,
        [("L", ⟨"LLL", "T", "#fff", [⟨0, 0, 1⟩, ⟨10, 100, 1⟩],
          none, none, none, none, none⟩)], none⟩) 10 []).1.getD 0 dsDflt).gap = 0 ∧
    ((raceState (some ⟨[], none,
        [("L", ⟨"LLL", "T", "#fff", [⟨0, 0, 1⟩, ⟨10, 100, 1⟩],
          none, none, none, none, none⟩)], none⟩) 10 []).1.getD 0 dsDflt).interval = 0 := by
  apply c2_leader_gap_interval_zero
  norm_num [raceState, sortedStates, annStates, buildState, interpolate, scanIdx,
    trackLenOf, firstSFn, isortC, insertC, cmpStates, List.filter_cons,
    mockCompound, GRID_ORDER, List.range_succ, computeOne]

/-- C4: after the (spec-modelled) reset operation clears the carried
previous-order state, the next snapshot reports a zero rank change for
every competitor, regardless of the order before the reset. -/
theorem c4_reset_rank_change_zero (raceData : Option RaceData) (raceTime : ℚ) :
    ∀ st ∈ (raceState raceData raceTime resetPrevOrder).1, st.positionChange = 0 := by
  intro st hst
  match raceData with
  | none =>
    rw [raceState] at hst
    exact absurd hst (List.not_mem_nil st)
  | some rd =>
    by_cases hs : sortedStates rd raceTime = []
    · rw [raceState] at hst
      rw [if_pos (by simpa [List.isEmpty_iff] using hs)] at hst
      exact absurd hst (List.not_mem_nil st)
    · rw [raceState_fst rd raceTime resetPrevOrder hs] at hst
      rcases List.mem_map.mp hst with ⟨i, _, hci⟩
      rw [← hci]
      show (computeOne raceTime rd.drivers (firstSFn rd) resetPrevOrder
        (sortedStates rd raceTime) i).positionChange = 0
      simp only [computeOne, resetPrevOrder]
      rfl

/-- C4 witness: a two-driver snapshot queried right after a reset; both
reported rank changes are zero. -/
theorem c4_reset_rank_change_zero_witness :
    ((raceState (some rdPair) 10 resetPrevOrder).1.getD 0 dsDflt).positionChange = 0 ∧
    ((raceState (some rdPair) 10 resetPrevOrder).1.getD 1 dsDflt).positionChange = 0 := by
  have hlen : (raceState (some rdPair) 10 resetPrevOrder).1.length = 2 := by
    norm_num [raceState, sortedStates, annStates, rdPair, trackLenOf, buildState,
      interpolate, scanIdx, firstSFn, isortC, insertC, cmpStates, computeOne,
      findTimeForS, bsearchAux, mockCompound, GRID_ORDER, dsDflt, ppDflt,
      resetPrevOrder, List.filter_cons, List.range_succ,
      (by decide : ("LLL" : String) ≠ "BBB"), (by decide : ("BBB" : String) ≠ "LLL")]
  constructor
  · apply c4_reset_rank_change_zero (some rdPair) 10
    rw [List.getD_eq_getElem _ dsDflt (by rw [hlen]; norm_num)]
    exact List.getElem_mem _
  · apply c4_reset_rank_change_zero (some rdPair) 10
    rw [List.getD_eq_getElem _ dsDflt (by rw [hlen]; norm_num)]
    exact List.getElem_mem _

/-- Stable insertion produces a permutation of consing. -/
theorem insertC_perm {α : Type} (cmp : α → α → ℚ) (x : α) (l : List α) :
    List.Perm (insertC cmp x l) (x :: l) := by
  induction l with
  | nil => exact List.Perm.refl _
  | cons y ys ih =>
    rw [insertC]
    by_cases h : cmp x y < 0
    · rw [if_pos h]
    · rw [if_neg h]
      exact ((ih.cons y).trans (List.Perm.swap x y ys))

/-- Insertion sort permutes its input. -/
theorem isortC_perm {α : Type} (cmp : α → α → ℚ) (l : List α) :
    List.Perm (isortC cmp l) l := by
  induction l with
  | nil => exact List.Perm.refl _
  | cons x xs ih =>
    rw [isortC]
    exact (insertC_perm cmp x (isortC cmp xs)).trans (ih.cons x)

/-- A successfully built state keeps the driver's code and forces the
driver to have at least one position sample. -/
theorem buildState_some (trackLen raceTime : ℚ) (d : DriverData) (st : DriverState)
    (h : buildState trackLen raceTime d = some st) :
    st.driverCode = d.driverCode ∧ d.positions ≠ [] := by
  cases hpos : d.positions with
  | nil =>
    rw [buildState, hpos] at h
    simp [interpolate] at h
  | cons p rest =>
    rw [buildState] at h
    cases hint : interpolate d.positions raceTime with
    | none =>
      rw [hint] at h
      simp at h
    | some q =>
      rw [hint] at h
      simp only [Option.map_some] at h
      constructor
      · rw [← Option.some.inj h]
      · simp [hpos]

/-- Membership in the annotated state list: every state comes from a driver
record with the same code and non-empty positions, and carries
`dist = s - firstSMap[code]`. -/
theorem mem_annStates (rd : RaceData) (raceTime : ℚ) (st : DriverState)
    (h : st ∈ annStates rd raceTime) :
    (∃ e ∈ rd.drivers, e.2.driverCode = st.driverCode ∧ e.2.positions ≠ []) ∧
    st.dist = st.s - firstSFn rd st.driverCode := by
  rw [annStates] at h
  rcases List.mem_map.mp h with ⟨st0, hst0, hmap⟩
  rcases List.mem_filterMap.mp hst0 with ⟨d, hd, hbuild⟩
  rcases List.mem_map.mp hd with ⟨e, he, hsnd⟩
  have hb := buildState_some (trackLenOf rd) raceTime d st0 hbuild
  have hcode : st.driverCode = st0.driverCode := by rw [← hmap]
  have hs : st.s = st0.s := by rw [← hmap]
  have hdist : st.dist = st0.s - firstSFn rd st0.driverCode := by rw [← hmap]
  refine ⟨⟨e, he, ?_, ?_⟩, ?_⟩
  · rw [hsnd, ← hb.1, hcode]
  · rw [hsnd]
    exact hb.2
  · rw [hdist, hcode, hs]

/-- With pairwise-distinct driver codes, two records sharing a code are the
same record. -/
theorem nodup_code_unique (l : List (String × DriverData))
    (hnd : (l.map (fun x => x.2.driverCode)).Nodup) :
    ∀ a ∈ l, ∀ b ∈ l, a.2.driverCode = b.2.driverCode → a = b := by
  induction l with
  | nil =>
    intro a ha
    exact absurd ha (List.not_mem_nil a)
  | cons hd tl ih =>
    intro a ha b hb hab
    rw [List.map_cons, List.nodup_cons] at hnd
    rcases List.mem_cons.mp ha with ha' | ha' <;>
      rcases List.mem_cons.mp hb with hb' | hb'
    · rw [ha', hb']
    · exfalso
      apply hnd.1
      rw [← ha', hab]
      exact List.mem_map.mpr ⟨b, hb', rfl⟩
    · exfalso
      apply hnd.1
      rw [← hb', ← hab]
      exact List.mem_map.mpr ⟨a, ha', rfl⟩
    · exact ih hnd.2 a ha' b hb' hab

/-- With pairwise-distinct driver codes, `find?` by a member's code returns
exactly that member. -/
theorem find?_code_eq (l : List (String × DriverData))
    (hnd : (l.map (fun x => x.2.driverCode)).Nodup)
    (e : String × DriverData) (he : e ∈ l) (c : String) (hc : e.2.driverCode = c) :
    l.find? (fun x => decide (x.2.driverCode = c)) = some e := by
  induction l with
  | nil => exact absurd he (List.not_mem_nil e)
  | cons hd tl ih =>
    rw [List.map_cons, List.nodup_cons] at hnd
    by_cases hhd : hd.2.driverCode = c
    · have hehd : e = hd := by
        rcases List.mem_cons.mp he with h' | h'
        · exact h'
        · exfalso
          apply hnd.1
          rw [hhd, ← hc]
          exact List.mem_map.mpr ⟨e, h', rfl⟩
      rw [List.find?_cons_of_pos _ (by simpa using hhd), hehd]
    · have hetl : e ∈ tl := by
        rcases List.mem_cons.mp he with h' | h'
        · exact absurd (h' ▸ hc) hhd
        · exact h'
      rw [List.find?_cons_of_neg _ (by simpa using hhd)]
      exact ih hnd.2 hetl

/-- With pairwise-distinct driver codes, the `firstSMap` entry of a member
with samples is the member's own first-sample distance. -/
theorem firstSFn_eq (rd : RaceData)
    (hnd : (rd.drivers.map (fun x => x.2.driverCode)).Nodup)
    (e : String × DriverData) (he : e ∈ rd.drivers) (hpos : e.2.positions ≠ []) :
    firstSFn rd e.2.driverCode = (e.2.positions.headD ppDflt).s := by
  have hfilter : rd.drivers.filter
      (fun x => decide (x.2.driverCode = e.2.driverCode) && !x.2.positions.isEmpty) = [e] := by
    have hgen : ∀ (l : List (String × DriverData)),
        (l.map (fun x => x.2.driverCode)).Nodup → e ∈ l →
        l.filter (fun x => decide (x.2.driverCode = e.2.driverCode) &&
          !x.2.positions.isEmpty) = [e] := by
      intro l
      induction l with
      | nil =>
        intro _ hmem
        exact absurd hmem (List.not_mem_nil e)
      | cons hd tl ih =>
        intro hnd' hmem
        rw [List.map_cons, List.nodup_cons] at hnd'
        rcases List.mem_cons.mp hmem with he' | he'
        · subst he'
          rw [List.filter_cons_of_pos (by simp [hpos])]
          have htl : tl.filter (fun x => decide (x.2.driverCode = e.2.driverCode) &&
              !x.2.positions.isEmpty) = [] := by
            rw [List.filter_eq_nil_iff]
            intro a ha
            have hane : ¬ (a.2.driverCode = e.2.driverCode) := by
              intro hcontra
              apply hnd'.1
              rw [← hcontra]
              exact List.mem_map.mpr ⟨a, ha, rfl⟩
            simp [hane]
          rw [htl]
        · have hhd : ¬ (hd.2.driverCode = e.2.driverCode) := by
            intro hcontra
            apply hnd'.1
            rw [hcontra]
            exact List.mem_map.mpr ⟨e, he', rfl⟩
          rw [List.filter_cons_of_neg (by simp [hhd])]
          exact ih hnd'.2 he'
    exact hgen rd.drivers hnd he
  rw [firstSFn, hfilter]
  rfl

/-- `computeOne`'s gap at a non-leading index, once the leader's record is
found: the source's threshold-and-round expression. -/
theorem computeOne_gap (raceTime : ℚ) (drivers : List (String × DriverData))
    (firstS : String → ℚ) (prevOrder : List String)
    (sorted : List DriverState) (idx : ℕ) (h0 : ¬ idx = 0)
    (le : String × DriverData)
    (hfind : drivers.find?
      (fun e => decide (e.2.driverCode = (sorted.getD 0 dsDflt).driverCode)) = some le) :
    (computeOne raceTime drivers firstS prevOrder sorted idx).gap =
      (if 1/1000 < raceTime - findTimeForS le.2.positions
          ((sorted.getD idx dsDflt).dist + firstS (sorted.getD 0 dsDflt).driverCode)
       then round3 (raceTime - findTimeForS le.2.positions
          ((sorted.getD idx dsDflt).dist + firstS (sorted.getD 0 dsDflt).driverCode))
       else 0) := by
  simp only [computeOne]
  rw [if_neg h0, hfind]
  rfl

/-- The source's gap expression (`rawGap > 0.001 ? round3(rawGap) : 0`)
equals the claim's `max(0, round3(raw))`-with-noise-clamp formula. -/
theorem gap_code_eq_claimedGap (raw : ℚ) :
    (if 1/1000 < raw then round3 raw else 0) = claimedGap raw := by
  by_cases h : 1/1000 < raw
  · rw [if_pos h, claimedGap, if_neg (not_le.mpr h)]
    have hfloor : (1 : ℤ) ≤ Int.floor (raw * 1000 + 1/2) := by
      apply Int.le_floor.mpr
      push_cast
      linarith
    have hnn : (0 : ℚ) ≤ round3 raw := by
      rw [round3]
      positivity
    rw [max_eq_right hnn]
  · rw [if_neg h, claimedGap, if_pos (le_of_not_lt h)]

/-- The claim's gap formula is never negative. -/
theorem claimedGap_nonneg (raw : ℚ) : 0 ≤ claimedGap raw := by
  rw [claimedGap]
  by_cases h : raw ≤ 1/1000
  · rw [if_pos h]
  · rw [if_neg h]
    exact le_max_left 0 _

/-- C1: in every snapshot of the current engine (with pairwise-distinct
driver codes), every non-leading competitor's gap equals
`max(0, round(queryTime − leaderTimeAtThatDistance, 3))` with raw gaps at
or below the 0.001 noise threshold clamped to exactly zero, where
`leaderTimeAtThatDistance` projects the competitor's distance traveled
(`s − firstSMap[code]`) plus the leader's first-sample distance onto the
leader's curve through the inverse distance locator `findTimeForS`; in
particular the gap is never negative. -/
theorem c1_gap_to_leader_formula (rd : RaceData) (raceTime : ℚ)
    (prevOrder : List String)
    (hnd : (rd.drivers.map (fun x => x.2.driverCode)).Nodup)
    (i : ℕ) (h0 : 0 < i)
    (hi : i < (raceState (some rd) raceTime prevOrder).1.length)
    (eL : String × DriverData) (heL : eL ∈ rd.drivers)
    (hcode : eL.2.driverCode =
      ((raceState (some rd) raceTime prevOrder).1.getD 0 dsDflt).driverCode) :
    ((raceState (some rd) raceTime prevOrder).1.getD i dsDflt).gap =
      claimedGap (raceTime - findTimeForS eL.2.positions
        ((((raceState (some rd) raceTime prevOrder).1.getD i dsDflt).s -
            firstSFn rd
              (((raceState (some rd) raceTime prevOrder).1.getD i dsDflt).driverCode)) +
          firstSFn rd
            (((raceState (some rd) raceTime prevOrder).1.getD 0 dsDflt).driverCode))) ∧
    firstSFn rd (((raceState (some rd) raceTime prevOrder).1.getD 0 dsDflt).driverCode) =
      (eL.2.positions.headD ppDflt).s ∧
    0 ≤ ((raceState (some rd) raceTime prevOrder).1.getD i dsDflt).gap := by
  -- the ranked list is non-empty
  have hs : sortedStates rd raceTime ≠ [] := by
    intro hsnil
    rw [raceState] at hi
    rw [if_pos (by simpa [List.isEmpty_iff] using hsnil)] at hi
    simp at hi
  have hlen := raceState_length rd raceTime prevOrder hs
  have hlenpos : 0 < (sortedStates rd raceTime).length := List.length_pos.mpr hs
  have hilen : i < (sortedStates rd raceTime).length := by rw [← hlen]; exact hi
  -- index the snapshot through computeOne
  have hget0 := raceState_getD rd raceTime prevOrder 0 hs hlenpos
  have hgeti := raceState_getD rd raceTime prevOrder i hs hilen
  have hf0 := computeOne_fields raceTime rd.drivers (firstSFn rd) prevOrder
    (sortedStates rd raceTime) 0
  have hfi := computeOne_fields raceTime rd.drivers (firstSFn rd) prevOrder
    (sortedStates rd raceTime) i
  -- notation for the ranked states
  set sorted := sortedStates rd raceTime with hsorted
  set lead := sorted.getD 0 dsDflt with hlead
  set sti := sorted.getD i dsDflt with hsti
  -- the codes of the emitted snapshot agree with the ranked states
  have hcode0 : ((raceState (some rd) raceTime prevOrder).1.getD 0 dsDflt).driverCode =
      lead.driverCode := by rw [hget0]; exact hf0.1
  have hcodei : ((raceState (some rd) raceTime prevOrder).1.getD i dsDflt).driverCode =
      sti.driverCode := by rw [hgeti]; exact hfi.1
  have hsi : ((raceState (some rd) raceTime prevOrder).1.getD i dsDflt).s = sti.s := by
    rw [hgeti]; exact hfi.2.1
  -- the leader state comes from a unique driver record: eL itself
  have hleadmem : lead ∈ sorted := by
    rw [hlead, List.getD_eq_getElem sorted dsDflt hlenpos]
    exact List.getElem_mem _
  have hleadann : lead ∈ annStates rd raceTime :=
    (isortC_perm (cmpStates (firstSFn rd)) (annStates rd raceTime)).subset hleadmem
  rcases mem_annStates rd raceTime lead hleadann with ⟨⟨e0, he0, he0code, he0pos⟩, _⟩
  have heL0 : eL = e0 := by
    apply nodup_code_unique rd.drivers hnd eL heL e0 he0
    rw [he0code, hcode, hcode0]
  have heLpos : eL.2.positions ≠ [] := by rw [heL0]; exact he0pos
  have heLcode : eL.2.driverCode = lead.driverCode := by rw [hcode, hcode0]
  -- find? resolves to eL
  have hfind : rd.drivers.find?
      (fun e => decide (e.2.driverCode = lead.driverCode)) = some eL :=
    find?_code_eq rd.drivers hnd eL heL lead.driverCode heLcode
  -- the annotated dist of the i-th state
  have hsimem : sti ∈ sorted := by
    rw [hsti, List.getD_eq_getElem sorted dsDflt hilen]
    exact List.getElem_mem _
  have hsiann : sti ∈ annStates rd raceTime :=
    (isortC_perm (cmpStates (firstSFn rd)) (annStates rd raceTime)).subset hsimem
  have hdisti : sti.dist = sti.s - firstSFn rd sti.driverCode :=
    (mem_annStates rd raceTime sti hsiann).2
  -- assemble
  have hgap := computeOne_gap raceTime rd.drivers (firstSFn rd) prevOrder
    sorted i (by omega) eL hfind
  refine ⟨?_, ?_, ?_⟩
  · rw [hgeti, hgap, gap_code_eq_claimedGap]
    rw [hget0, hfi.1, hfi.2.1, hf0.1, hdisti]
  · rw [hcode0, ← heLcode]
    exact firstSFn_eq rd hnd eL heL heLpos
  · rw [hgeti, hgap, gap_code_eq_claimedGap]
    exact claimedGap_nonneg _

/-- C1 witness: in the two-driver dataset `rdPair` at query time 10, the
non-leading competitor's gap is exactly 5 seconds (the leader crossed the
projected distance 50 at time 5), matching the claimed formula, and the gap
is non-negative. -/
theorem c1_gap_to_leader_formula_witness :
    ((raceState (some rdPair) 10 []).1.getD 1 dsDflt).gap = 5 ∧
    0 ≤ ((raceState (some rdPair) 10 []).1.getD 1 dsDflt).gap := by
  have hnd : (rdPair.drivers.map (fun x => x.2.driverCode)).Nodup := by
    simp [rdPair]
  have heL : ("L", (⟨"LLL", "T", "#fff", [⟨0, 0, 1⟩, ⟨10, 100, 1⟩],
      none, none, none, none, none⟩ : DriverData)) ∈ rdPair.drivers := by
    simp [rdPair]
  have hleng : 1 < (raceState (some rdPair) 10 []).1.length := by
    norm_num [raceState, sortedStates, annStates, rdPair, trackLenOf, buildState,
      interpolate, scanIdx, firstSFn, isortC, insertC, cmpStates, computeOne,
      findTimeForS, bsearchAux, mockCompound, GRID_ORDER, dsDflt, ppDflt,
      List.filter_cons, List.range_succ,
      (by decide : ("LLL" : String) ≠ "BBB"), (by decide : ("BBB" : String) ≠ "LLL")]
  have hcode : (("L", (⟨"LLL", "T", "#fff", [⟨0, 0, 1⟩, ⟨10, 100, 1⟩],
      none, none, none, none, none⟩ : DriverData))).2.driverCode =
      ((raceState (some rdPair) 10 []).1.getD 0 dsDflt).driverCode := by
    norm_num [raceState, sortedStates, annStates, rdPair, trackLenOf, buildState,
      interpolate, scanIdx, firstSFn, isortC, insertC, cmpStates, computeOne,
      findTimeForS, bsearchAux, mockCompound, GRID_ORDER, dsDflt, ppDflt,
      List.filter_cons, List.range_succ,
      (by decide : ("LLL" : String) ≠ "BBB"), (by decide : ("BBB" : String) ≠ "LLL")]
  have h := c1_gap_to_leader_formula rdPair 10 [] hnd 1 one_pos hleng
    ("L", (⟨"LLL", "T", "#fff", [⟨0, 0, 1⟩, ⟨10, 100, 1⟩],
      none, none, none, none, none⟩ : DriverData)) heL hcode
  refine ⟨?_, h.2.2⟩
  rw [h.1]
  norm_num [raceState, sortedStates, annStates, rdPair, trackLenOf, buildState,
    interpolate, scanIdx, firstSFn, isortC, insertC, cmpStates, computeOne,
    findTimeForS, bsearchAux, mockCompound, GRID_ORDER, dsDflt, ppDflt,
    List.filter_cons, List.range_succ, claimedGap, round3,
    (by decide : ("LLL" : String) ≠ "BBB"), (by decide : ("BBB" : String) ≠ "LLL")]

/- =========================
   Helper lemmas: the ranking sort (C3)
========================= -/

/-- The ranking comparator is antisymmetric. -/
theorem cmpStates_anti (firstS : String → ℚ) (a b : DriverState) :
    cmpStates firstS a b = -(cmpStates firstS b a) := by
  rw [cmpStates, cmpStates]
  have habs : |a.dist - b.dist| = |b.dist - a.dist| := abs_sub_comm _ _
  by_cases h : |b.dist - a.dist| < 1/2
  · rw [if_pos h, if_pos (by rw [habs]; exact h)]
    ring
  · rw [if_neg h, if_neg (by rw [habs]; exact h)]
    ring

/-- The ranking comparator reads only `dist` and the code's starting
offset. -/
theorem cmpStates_congr (firstS : String → ℚ) (a a' b b' : DriverState)
    (ha1 : a.dist = a'.dist) (ha2 : a.driverCode = a'.driverCode)
    (hb1 : b.dist = b'.dist) (hb2 : b.driverCode = b'.driverCode) :
    cmpStates firstS a b = cmpStates firstS a' b' := by
  rw [cmpStates, cmpStates, ha1, ha2, hb1, hb2]

/-- Inserting into a list whose adjacent pairs respect an antisymmetric
comparator preserves that property. -/
theorem insertC_chain {α : Type} (cmp : α → α → ℚ)
    (hanti : ∀ a b, cmp a b = -(cmp b a)) (x : α) (l : List α)
    (hl : List.Chain' (fun u v => 0 ≤ cmp v u) l) :
    List.Chain' (fun u v => 0 ≤ cmp v u) (insertC cmp x l) := by
  induction l with
  | nil => simp [insertC]
  | cons y ys ih =>
    rw [insertC]
    by_cases h : cmp x y < 0
    · rw [if_pos h]
      refine List.Chain'.cons ?_ hl
      rw [hanti y x]
      linarith
    · rw [if_neg h]
      refine List.chain'_cons'.mpr ⟨?_, ih hl.tail⟩
      intro z hz
      cases ys with
      | nil =>
        simp only [insertC, List.head?_cons, Option.mem_def, Option.some.injEq] at hz
        rw [← hz]
        exact le_of_not_lt h
      | cons w ws =>
        rw [insertC] at hz
        by_cases h2 : cmp x w < 0
        · rw [if_pos h2] at hz
          simp only [List.head?_cons, Option.mem_def, Option.some.injEq] at hz
          rw [← hz]
          exact le_of_not_lt h
        · rw [if_neg h2] at hz
          simp only [List.head?_cons, Option.mem_def, Option.some.injEq] at hz
          rw [← hz]
          exact hl.rel_head

/-- Every adjacent pair of the insertion sort's output respects the
(antisymmetric) comparator. -/
theorem isortC_chain {α : Type} (cmp : α → α → ℚ)
    (hanti : ∀ a b, cmp a b = -(cmp b a)) (l : List α) :
    List.Chain' (fun u v => 0 ≤ cmp v u) (isortC cmp l) := by
  induction l with
  | nil => simp [isortC]
  | cons x xs ih =>
    rw [isortC]
    exact insertC_chain cmp hanti x (isortC cmp xs) ih

set_option maxHeartbeats 1600000 in
/-- C3 counterexample: the claimed pairwise ranking property fails.  In the
snapshot of `rdCycle` at query time 10 the output order is AAA, BBB, CCC
(each adjacent near-tie decided by starting offset), but the non-adjacent
pair (AAA, CCC) differs by 0.8 ≥ 0.5 in distance traveled and is ranked
against descending distance (0 above 0.8): the epsilon tie-break makes the
comparator non-transitive, so no output order can satisfy the claimed
property for **all** pairs. -/
theorem c3_counterexample :
    ¬ (∀ i j : ℕ, i < j → j < (raceState (some rdCycle) 10 []).1.length →
        (if |((raceState (some rdCycle) 10 []).1.getD i dsDflt).dist -
              ((raceState (some rdCycle) 10 []).1.getD j dsDflt).dist| < 1/2
         then firstSFn rdCycle
                (((raceState (some rdCycle) 10 []).1.getD j dsDflt).driverCode) ≤
              firstSFn rdCycle
                (((raceState (some rdCycle) 10 []).1.getD i dsDflt).driverCode)
         else ((raceState (some rdCycle) 10 []).1.getD j dsDflt).dist ≤
              ((raceState (some rdCycle) 10 []).1.getD i dsDflt).dist)) := by
  intro h
  have hlen : (raceState (some rdCycle) 10 []).1.length = 3 := by
    norm_num [raceState, sortedStates, annStates, rdCycle, trackLenOf, buildState,
      interpolate, scanIdx, firstSFn, isortC, insertC, cmpStates, computeOne,
      findTimeForS, bsearchAux, mockCompound, GRID_ORDER, dsDflt, ppDflt,
      List.filter_cons, List.range_succ,
      (by decide : ("AAA" : String) ≠ "BBB"), (by decide : ("BBB" : String) ≠ "AAA"),
      (by decide : ("AAA" : String) ≠ "CCC"), (by decide : ("CCC" : String) ≠ "AAA"),
      (by decide : ("BBB" : String) ≠ "CCC"), (by decide : ("CCC" : String) ≠ "BBB"),
      (by rw [abs_of_nonneg] <;> norm_num : |(2 : ℚ)/5| < 1/2)]
  have h02 := h 0 2 (by norm_num) (by rw [hlen]; norm_num)
  rw [show ((raceState (some rdCycle) 10 []).1.getD 0 dsDflt).dist = 0 by
      norm_num [raceState, sortedStates, annStates, rdCycle, trackLenOf, buildState,
        interpolate, scanIdx, firstSFn, isortC, insertC, cmpStates, computeOne,
        findTimeForS, bsearchAux, mockCompound, GRID_ORDER, dsDflt, ppDflt,
        List.filter_cons, List.range_succ,
        (by decide : ("AAA" : String) ≠ "BBB"), (by decide : ("BBB" : String) ≠ "AAA"),
        (by decide : ("AAA" : String) ≠ "CCC"), (by decide : ("CCC" : String) ≠ "AAA"),
        (by decide : ("BBB" : String) ≠ "CCC"), (by decide : ("CCC" : String) ≠ "BBB"),
        (by rw [abs_of_nonneg] <;> norm_num : |(2 : ℚ)/5| < 1/2)],
    show ((raceState (some rdCycle) 10 []).1.getD 2 dsDflt).dist = 4/5 by
      norm_num [raceState, sortedStates, annStates, rdCycle, trackLenOf, buildState,
        interpolate, scanIdx, firstSFn, isortC, insertC, cmpStates, computeOne,
        findTimeForS, bsearchAux, mockCompound, GRID_ORDER, dsDflt, ppDflt,
        List.filter_cons, List.range_succ,
        (by decide : ("AAA" : String) ≠ "BBB"), (by decide : ("BBB" : String) ≠ "AAA"),
        (by decide : ("AAA" : String) ≠ "CCC"), (by decide : ("CCC" : String) ≠ "AAA"),
        (by decide : ("BBB" : String) ≠ "CCC"), (by decide : ("CCC" : String) ≠ "BBB"),
        (by rw [abs_of_nonneg] <;> norm_num : |(2 : ℚ)/5| < 1/2)]]
    at h02
  rw [if_neg (by
    rw [abs_sub_comm, sub_zero, abs_of_nonneg (by norm_num : (0 : ℚ) ≤ 4/5)]
    norm_num)] at h02
  linarith

/-- C3 (amended): competitors are ordered by a stable insertion sort under
the comparator "descending distance traveled, with a descending
starting-offset tie-break when the distances differ by less than 0.5", and
every **adjacent** pair of the output satisfies that comparator: for an
adjacent near-tie the lower-ranked competitor never has the strictly
greater starting offset, and an adjacent non-tie is in descending distance
order.  For non-adjacent pairs the property can fail (see the
counterexample), because the epsilon tie-break makes the comparator
non-transitive. -/
theorem c3_ranking_adjacent (rd : RaceData) (raceTime : ℚ)
    (prevOrder : List String) (i : ℕ)
    (hi : i + 1 < (raceState (some rd) raceTime prevOrder).1.length) :
    0 ≤ cmpStates (firstSFn rd)
        ((raceState (some rd) raceTime prevOrder).1.getD (i + 1) dsDflt)
        ((raceState (some rd) raceTime prevOrder).1.getD i dsDflt) ∧
    (|((raceState (some rd) raceTime prevOrder).1.getD (i + 1) dsDflt).dist -
        ((raceState (some rd) raceTime prevOrder).1.getD i dsDflt).dist| < 1/2 →
      firstSFn rd
          (((raceState (some rd) raceTime prevOrder).1.getD (i + 1) dsDflt).driverCode) ≤
        firstSFn rd
          (((raceState (some rd) raceTime prevOrder).1.getD i dsDflt).driverCode)) ∧
    (¬ |((raceState (some rd) raceTime prevOrder).1.getD (i + 1) dsDflt).dist -
        ((raceState (some rd) raceTime prevOrder).1.getD i dsDflt).dist| < 1/2 →
      ((raceState (some rd) raceTime prevOrder).1.getD (i + 1) dsDflt).dist ≤
        ((raceState (some rd) raceTime prevOrder).1.getD i dsDflt).dist) := by
  have hs : sortedStates rd raceTime ≠ [] := by
    intro hsnil
    rw [raceState] at hi
    rw [if_pos (by simpa [List.isEmpty_iff] using hsnil)] at hi
    simp at hi
  have hlen := raceState_length rd raceTime prevOrder hs
  have hilen : i + 1 < (sortedStates rd raceTime).length := by rw [← hlen]; exact hi
  have hgeti := raceState_getD rd raceTime prevOrder i hs (by omega)
  have hgeti1 := raceState_getD rd raceTime prevOrder (i + 1) hs hilen
  have hfi := computeOne_fields raceTime rd.drivers (firstSFn rd) prevOrder
    (sortedStates rd raceTime) i
  have hfi1 := computeOne_fields raceTime rd.drivers (firstSFn rd) prevOrder
    (sortedStates rd raceTime) (i + 1)
  have hchain : List.Chain' (fun u v => 0 ≤ cmpStates (firstSFn rd) v u)
      (sortedStates rd raceTime) := by
    rw [sortedStates]
    exact isortC_chain (cmpStates (firstSFn rd)) (cmpStates_anti (firstSFn rd))
      (annStates rd raceTime)
  have hrel := List.chain'_iff_get.mp hchain i (by omega)
  have hgd1 : (sortedStates rd raceTime).get ⟨i, by omega⟩ =
      (sortedStates rd raceTime).getD i dsDflt := by
    rw [List.getD_eq_getElem _ dsDflt (by omega)]
    rfl
  have hgd2 : (sortedStates rd raceTime).get ⟨i + 1, by omega⟩ =
      (sortedStates rd raceTime).getD (i + 1) dsDflt := by
    rw [List.getD_eq_getElem _ dsDflt hilen]
    rfl
  rw [hgd1, hgd2] at hrel
  have hcmp : cmpStates (firstSFn rd)
      ((raceState (some rd) raceTime prevOrder).1.getD (i + 1) dsDflt)
      ((raceState (some rd) raceTime prevOrder).1.getD i dsDflt) =
      cmpStates (firstSFn rd)
        ((sortedStates rd raceTime).getD (i + 1) dsDflt)
        ((sortedStates rd raceTime).getD i dsDflt) := by
    apply cmpStates_congr
    · rw [hgeti1]; exact hfi1.2.2
    · rw [hgeti1]; exact hfi1.1
    · rw [hgeti]; exact hfi.2.2
    · rw [hgeti]; exact hfi.1
  have hmain : 0 ≤ cmpStates (firstSFn rd)
      ((raceState (some rd) raceTime prevOrder).1.getD (i + 1) dsDflt)
      ((raceState (some rd) raceTime prevOrder).1.getD i dsDflt) := by
    rw [hcmp]
    exact hrel
  refine ⟨hmain, ?_, ?_⟩
  · intro habs
    rw [cmpStates] at hmain
    rw [if_pos (by rw [abs_sub_comm]; exact habs)] at hmain
    linarith
  · intro habs
    rw [cmpStates] at hmain
    rw [if_neg (by rw [abs_sub_comm]; exact habs)] at hmain
    linarith

/-- C3 witness: in the `rdCycle` snapshot the adjacent pair at ranks 1 and
2 respects the comparator. -/
theorem c3_ranking_adjacent_witness :
    0 ≤ cmpStates (firstSFn rdCycle)
        ((raceState (some rdCycle) 10 []).1.getD 1 dsDflt)
        ((raceState (some rdCycle) 10 []).1.getD 0 dsDflt) := by
  have hlen : (raceState (some rdCycle) 10 []).1.length = 3 := by
    norm_num [raceState, sortedStates, annStates, rdCycle, trackLenOf, buildState,
      interpolate, scanIdx, firstSFn, isortC, insertC, cmpStates, computeOne,
      findTimeForS, bsearchAux, mockCompound, GRID_ORDER, dsDflt, ppDflt,
      List.filter_cons, List.range_succ,
      (by decide : ("AAA" : String) ≠ "BBB"), (by decide : ("BBB" : String) ≠ "AAA"),
      (by decide : ("AAA" : String) ≠ "CCC"), (by decide : ("CCC" : String) ≠ "AAA"),
      (by decide : ("BBB" : String) ≠ "CCC"), (by decide : ("CCC" : String) ≠ "BBB"),
      (by rw [abs_of_nonneg] <;> norm_num : |(2 : ℚ)/5| < 1/2)]
  exact (c3_ranking_adjacent rdCycle 10 [] 0 (by rw [hlen]; norm_num)).1
